import Mathlib

/-!
# Todo store and tool dispatcher

A shallow embedding of the Go packages `internal/data` (the SQLite-backed
`DatabaseContext`), `internal/tools` (the `TodosMcpTool` dispatcher) and
`internal/server` (the JSON-RPC endpoint `MCPServer`).

* The table `todos` is a list of rows together with the `sqlite_sequence`
  counter that `AUTOINCREMENT` maintains.  Each SQL statement issued by the Go
  code is given its SQLite meaning as a function on that table.
* Go's `(value, error)` results are `Except String value`; an operation that may
  write returns the new `DatabaseContext` next to its result.
* Every `err != nil` branch of the Go code is driven by a `Driver` value that
  says, per call site, whether the SQL driver reports a failure.
  `Driver.healthy` is the driver that reports none.
* Go `int` is 64 bits wide; the only place where the width is observable is
  `strconv.Atoi`, which is modelled with its range check.
* A date written to the table is the bound `time.Time` as the SQLite driver
  stores it (`sqliteDatetime`): text with the offset in whole minutes and a
  four-digit year, parsed again when a row is scanned.
* The server works on decoded values: an `interface{}` is a `JSON` value, and
  `time.Parse` and `json.Marshal` are parameters (`Stdlib`), so that every
  statement about the server holds for whatever these two functions compute.
-/

set_option linter.dupNamespace false

namespace MCPServer

/-! ## Go standard library: `strings.TrimSpace`, `strconv.Atoi`, `%d` -/

/-- White space as `unicode.IsSpace` defines it. -/
def isSpace (c : Char) : Bool :=
  c = '\t' || c = '\n' || c.toNat = 0x0B || c.toNat = 0x0C || c = '\r' || c = ' ' ||
  c.toNat = 0x85 || c.toNat = 0xA0 || c.toNat = 0x1680 ||
  (0x2000 ≤ c.toNat && c.toNat ≤ 0x200A) ||
  c.toNat = 0x2028 || c.toNat = 0x2029 || c.toNat = 0x202F || c.toNat = 0x205F ||
  c.toNat = 0x3000

/-- Go `strings.TrimSpace`: the string without its leading and trailing white space. -/
def TrimSpace (s : String) : String :=
  String.mk ((s.data.dropWhile isSpace).reverse.dropWhile isSpace).reverse

/-- Largest value of a 64-bit Go `int`. -/
def maxInt : Int := 9223372036854775807

/-- Value of a run of decimal digits, most significant first. -/
def digitsValue (ds : List Char) : Nat :=
  ds.foldl (fun n ch => n * 10 + (ch.toNat - 48)) 0

/-- Digits of `Atoi`: a non-empty run of `0`..`9` read as an unsigned number. -/
def parseDigits (ds : List Char) : Option Nat :=
  if ds = [] then none
  else if ds.all (fun ch => decide (48 ≤ ch.toNat ∧ ch.toNat ≤ 57)) then some (digitsValue ds)
  else none

/-- Go `strconv.Atoi` on a 64-bit platform: an optional sign followed by decimal
digits, within the range of `int`; `none` stands for a non-nil error. -/
def Atoi (s : String) : Option Int :=
  match s.data with
  | [] => none
  | c :: cs =>
    if c = '-' then
      match parseDigits cs with
      | some n => if (n : Int) ≤ maxInt + 1 then some (-(n : Int)) else none
      | none => none
    else
      match parseDigits (if c = '+' then cs else c :: cs) with
      | some n => if (n : Int) ≤ maxInt then some (n : Int) else none
      | none => none

/-- The verb `%d` of `fmt.Sprintf` applied to an `int`. -/
def formatInt (n : Int) : String := toString n

deriving instance DecidableEq for Except

/-! ## Package `data`: entities -/

/-- Go `time.Time` as the store sees it: an instant in nanoseconds since the
Unix epoch and the zone offset, in seconds east of UTC, it was given in. -/
structure Time where
  unixNano : Int
  offset : Int
deriving DecidableEq, Repr

/-- Unix second at which the wall-clock year 0 begins. -/
def yearZeroStart : Int := -62167219200

/-- Unix second at which the wall-clock year 10000 begins. -/
def yearTenThousandStart : Int := 253402300800

/-- The zero value `time.Time{}`: the first instant of year 1, in UTC. -/
def zeroTime : Time := { unixNano := -62135596800000000000, offset := 0 }

/-- Zone offset in whole minutes, as `Time.Format` computes it for the layout
element `-07:00`: Go's `offset / 60`, which truncates toward zero. -/
def zoneMinutes (offset : Int) : Int :=
  if 0 ≤ offset then offset / 60 else -((-offset) / 60)

/-- What a `time.Time` bound to the `DATETIME` column is when a row is scanned
back.  The SQLite driver writes the value as text in the layout
`2006-01-02 15:04:05.999999999-07:00` and parses that text when it reads the
column.  The wall clock and the nanoseconds survive; the offset is written in
whole minutes, so the seconds of an offset move into the instant; a text whose
year is not four digits, or whose offset hour is above 24, does not parse and
the driver yields the zero time, without an error. -/
def sqliteDatetime (t : Time) : Time :=
  let wallSec := t.unixNano / 1000000000 + t.offset
  let zone := zoneMinutes t.offset
  if yearZeroStart ≤ wallSec ∧ wallSec < yearTenThousandStart ∧ -1500 < zone ∧ zone < 1500 then
    { unixNano := t.unixNano + (t.offset - zone * 60) * 1000000000, offset := zone * 60 }
  else zeroTime

/-- Dates the driver gives back as they were bound: an offset of whole minutes,
less than 25 hours in size, and a wall-clock year from 0 to 9999. -/
def Time.storable (t : Time) : Prop :=
  t.offset % 60 = 0 ∧ -90000 < t.offset ∧ t.offset < 90000 ∧
  yearZeroStart ≤ t.unixNano / 1000000000 + t.offset ∧
  t.unixNano / 1000000000 + t.offset < yearTenThousandStart

instance (t : Time) : Decidable t.storable := by
  unfold Time.storable; infer_instance

/-- Todo represents a todo item entity. -/
structure Todo where
  ID : Int
  Description : Option String
  CreatedDate : Time
deriving DecidableEq, Repr

/-- CreateTodoInput represents input for creating a new todo. -/
structure CreateTodoInput where
  Description : String
  CreatedDate : Time
deriving DecidableEq, Repr

/-- UpdateTodoInput represents input for updating an existing todo; a nil
pointer is `none`. -/
structure UpdateTodoInput where
  Description : Option String
  CreatedDate : Option Time
deriving DecidableEq, Repr

/-! ## The SQL driver and the table -/

/-- Failures the SQL driver may report, one per call site of the Go code:
`none` when the call succeeds, `some detail` when it returns an error. -/
structure Driver where
  insertErr : Option String
  queryErr : Option String
  scanErr : Option String
  rowsErr : Option String
  existsErr : Option String
  updateErr : Option String
  deleteErr : Option String
deriving DecidableEq, Repr

/-- The driver that reports no storage failure. -/
def Driver.healthy : Driver :=
  { insertErr := none, queryErr := none, scanErr := none, rowsErr := none,
    existsErr := none, updateErr := none, deleteErr := none }

/-- DatabaseContext handles all database operations for todos: the rows of the
table `todos` and the `sqlite_sequence` entry of that table (the largest id
`AUTOINCREMENT` has handed out so far). -/
structure DatabaseContext where
  rows : List Todo
  seq : Int
deriving DecidableEq, Repr

/-- NewInMemoryDatabaseContext: a fresh database after `initializeSchema`. -/
def NewInMemoryDatabaseContext : DatabaseContext := { rows := [], seq := 0 }

/-- Some row of the table carries the id. -/
def DatabaseContext.hasRow (ctx : DatabaseContext) (id : Int) : Prop :=
  ∃ r ∈ ctx.rows, r.ID = id

instance (ctx : DatabaseContext) (id : Int) : Decidable (ctx.hasRow id) := by
  unfold DatabaseContext.hasRow; infer_instance

/-- Rowid `AUTOINCREMENT` picks for the next insert: one more than the largest
id that is or ever was in the table.  SQLite refuses the insert (`SQLITE_FULL`)
once the 64-bit rowid space is used up; that refusal is a driver failure and
belongs to `Driver.insertErr`, so ids are unbounded integers here. -/
def nextRowid (ctx : DatabaseContext) : Int :=
  ctx.rows.foldl (fun m r => max m r.ID) (max ctx.seq 0) + 1

/-- Clause `ORDER BY id`. -/
def orderById (rows : List Todo) : List Todo :=
  rows.insertionSort (fun a b => a.ID ≤ b.ID)

/-- Statement `SELECT id, description, created_date FROM todos ORDER BY id`. -/
def selectAll (ctx : DatabaseContext) : List Todo :=
  orderById ctx.rows

/-- Statement `SELECT id, description, created_date FROM todos WHERE id = ? ORDER BY id`. -/
def selectById (ctx : DatabaseContext) (id : Int) : List Todo :=
  orderById (ctx.rows.filter (fun r => decide (r.ID = id)))

/-- Statement `SELECT 1 FROM todos WHERE id = ? LIMIT 1`: whether a row came back. -/
def selectExists (ctx : DatabaseContext) (id : Int) : Bool :=
  ctx.rows.any (fun r => decide (r.ID = id))

/-- One element of `setParts` with its argument. -/
inductive SetPart where
  | description (v : String)
  | created_date (v : Time)
deriving DecidableEq, Repr

/-- Assignment a `SET` element performs on a row; the date is the bound value
as the driver stores it. -/
def SetPart.assign (r : Todo) : SetPart → Todo
  | .description v => { r with Description := some v }
  | .created_date v => { r with CreatedDate := sqliteDatetime v }

/-- Statement `UPDATE todos SET <setParts> WHERE id = ?`. -/
def execUpdate (ctx : DatabaseContext) (setParts : List SetPart) (id : Int) : DatabaseContext :=
  { ctx with rows := ctx.rows.map (fun r => if r.ID = id then setParts.foldl SetPart.assign r else r) }

/-- Statement `DELETE FROM todos WHERE id = ?`. -/
def execDelete (ctx : DatabaseContext) (id : Int) : DatabaseContext :=
  { ctx with rows := ctx.rows.filter (fun r => decide (r.ID ≠ id)) }

/-- Statement `INSERT INTO todos (description, created_date) VALUES (?, ?) RETURNING id`;
the date of the new row is the bound value as the driver stores it. -/
def execInsert (ctx : DatabaseContext) (description : String) (createdDate : Time) :
    Int × DatabaseContext :=
  let id := nextRowid ctx
  (id, { rows := ctx.rows ++
           [{ ID := id, Description := some description, CreatedDate := sqliteDatetime createdDate }],
         seq := id })

/-! ## Package `data`: `DatabaseContext` operations -/

/-- CreateTodoAsync creates a new todo and returns it. -/
def DatabaseContext.CreateTodoAsync (ctx : DatabaseContext) (drv : Driver)
    (input : CreateTodoInput) : Except String Todo × DatabaseContext :=
  match drv.insertErr with
  | some err => (.error ("failed to create todo: " ++ err), ctx)
  | none =>
    let (id, ctx') := execInsert ctx input.Description input.CreatedDate
    (.ok { ID := id, Description := some input.Description, CreatedDate := input.CreatedDate }, ctx')

/-- ReadTodosAsync retrieves all todos or a specific todo by ID; the variadic
`id ...int` is the list of the ids passed.  The returned slice is a list, a nil
slice being the empty list. -/
def DatabaseContext.ReadTodosAsync (ctx : DatabaseContext) (drv : Driver)
    (id : List Int) : Except String (List Todo) :=
  let result :=
    match id with
    | i :: _ => if i > 0 then selectById ctx i else selectAll ctx
    | [] => selectAll ctx
  match drv.queryErr with
  | some err => .error ("failed to query todos: " ++ err)
  | none =>
    match result, drv.scanErr with
    | _ :: _, some err => .error ("failed to scan todo: " ++ err)
    | _, _ =>
      match drv.rowsErr with
      | some err => .error ("error iterating todos: " ++ err)
      | none => .ok result

/-- Method todoExists checks if a todo with the given ID exists. -/
def DatabaseContext.todoExists (ctx : DatabaseContext) (drv : Driver) (id : Int) :
    Except String Bool :=
  match drv.existsErr with
  | some err => .error ("failed to check todo existence: " ++ err)
  | none => .ok (selectExists ctx id)

/-- The `setParts`/`args` the dynamic update query is built from. -/
def buildSetParts (input : UpdateTodoInput) : List SetPart :=
  (match input.Description with
    | some d => if TrimSpace d ≠ "" then [SetPart.description d] else []
    | none => []) ++
  (match input.CreatedDate with
    | some t => [SetPart.created_date t]
    | none => [])

/-- UpdateTodoAsync updates a todo by ID. -/
def DatabaseContext.UpdateTodoAsync (ctx : DatabaseContext) (drv : Driver) (id : Int)
    (input : UpdateTodoInput) : Except String Bool × DatabaseContext :=
  match ctx.todoExists drv id with
  | .error err => (.error err, ctx)
  | .ok false => (.ok false, ctx)
  | .ok true =>
    let setParts := buildSetParts input
    if setParts.length = 0 then (.ok true, ctx)
    else
      match drv.updateErr with
      | some err => (.error ("failed to update todo: " ++ err), ctx)
      | none => (.ok true, execUpdate ctx setParts id)

/-- DeleteTodoAsync deletes a todo by ID. -/
def DatabaseContext.DeleteTodoAsync (ctx : DatabaseContext) (drv : Driver) (id : Int) :
    Except String Bool × DatabaseContext :=
  match ctx.todoExists drv id with
  | .error err => (.error err, ctx)
  | .ok false => (.ok false, ctx)
  | .ok true =>
    match drv.deleteErr with
    | some err => (.error ("failed to delete todo: " ++ err), ctx)
    | none => (.ok true, execDelete ctx id)

/-! ## Package `tools`: `TodosMcpTool` -/

/-- TodosMcpTool provides MCP tools for todo management. -/
structure TodosMcpTool where
  db : DatabaseContext
deriving DecidableEq, Repr

/-- UpdateTodoAsync updates the specified todo fields by id. -/
def TodosMcpTool.UpdateTodoAsync (t : TodosMcpTool) (drv : Driver) (id : String)
    (description : Option String) (createdDate : Option Time) :
    Except String String × TodosMcpTool :=
  match Atoi id with
  | none => (.ok "Invalid todo id.", t)
  | some todoID =>
    let updateInput : UpdateTodoInput :=
      { Description :=
          match description with
          | some d => if TrimSpace d ≠ "" then some d else none
          | none => none,
        CreatedDate := createdDate }
    match t.db.UpdateTodoAsync drv todoID updateInput with
    | (.error err, db') => (.error ("error updating todo: " ++ err), { db := db' })
    | (.ok false, db') => (.ok ("Todo with Id " ++ formatInt todoID ++ " not found."), { db := db' })
    | (.ok true, db') => (.ok ("Todo " ++ formatInt todoID ++ " updated."), { db := db' })

/-- The `updateInput` the dispatcher hands to the store: a blank description is
left out. -/
def updateInput (description : Option String) (createdDate : Option Time) : UpdateTodoInput :=
  { Description :=
      match description with
      | some d => if TrimSpace d ≠ "" then some d else none
      | none => none,
    CreatedDate := createdDate }

/-- CreateTodoAsync creates a new todo with a description and creation date.
The store always returns a todo whose description pointer is set; the branch
for a nil pointer stands for the run-time panic of `*todo.Description`. -/
def TodosMcpTool.CreateTodoAsync (t : TodosMcpTool) (drv : Driver) (description : String)
    (createdDate : Time) : Except String String × TodosMcpTool :=
  match t.db.CreateTodoAsync drv { Description := description, CreatedDate := createdDate } with
  | (.error err, db') => (.error ("error creating todo: " ++ err), { db := db' })
  | (.ok todo, db') =>
    match todo.Description with
    | some d => (.ok ("Todo created: " ++ d ++ " (Id: " ++ formatInt todo.ID ++ ")"), { db := db' })
    | none => (.error "invalid memory address or nil pointer dereference", { db := db' })

/-- ReadTodosAsync reads all todos, or a single todo if an id is provided. -/
def TodosMcpTool.ReadTodosAsync (t : TodosMcpTool) (drv : Driver) (id : Option String) :
    Except String (List Todo) :=
  match id with
  | some s =>
    if TrimSpace s ≠ "" then
      match Atoi (TrimSpace s) with
      | none => .ok []
      | some todoID => t.db.ReadTodosAsync drv [todoID]
    else t.db.ReadTodosAsync drv []
  | none => t.db.ReadTodosAsync drv []

/-- DeleteTodoAsync deletes a todo by id. -/
def TodosMcpTool.DeleteTodoAsync (t : TodosMcpTool) (drv : Driver) (id : String) :
    Except String String × TodosMcpTool :=
  match Atoi id with
  | none => (.ok "Invalid todo id.", t)
  | some todoID =>
    match t.db.DeleteTodoAsync drv todoID with
    | (.error err, db') => (.error ("error deleting todo: " ++ err), { db := db' })
    | (.ok false, db') => (.ok ("Todo with Id " ++ formatInt todoID ++ " not found."), { db := db' })
    | (.ok true, db') => (.ok ("Todo " ++ formatInt todoID ++ " deleted."), { db := db' })

/-! ## Package `server`: the protocol server -/

/-- A Go `interface{}` as `encoding/json` fills it: `nil`, `bool`, `float64`,
`string`, `[]interface{}` or `map[string]interface{}`.  A map is the list of its
entries, read with `List.lookup`. -/
inductive JSON where
  | null
  | bool (b : Bool)
  | number (x : Rat)
  | string (s : String)
  | array (xs : List JSON)
  | object (kvs : List (String × JSON))

/-- Functions of the Go standard library the server calls and the model leaves
open: `time.Parse(time.RFC3339, ·)` (`none` for a non-nil error) and
`json.Marshal` on a slice of todos (`none` for a non-nil error). -/
structure Stdlib where
  parseRFC3339 : String → Option Time
  marshalTodos : List Todo → Option String

/-- MCPServer provides MCP protocol endpoints. -/
structure MCPServer where
  todosTool : TodosMcpTool
deriving DecidableEq, Repr

/-- MCPRequest represents an MCP JSON-RPC request. -/
structure MCPRequest where
  JSONRPC : String
  ID : JSON
  Method : String
  Params : JSON

/-- MCPError represents an MCP JSON-RPC error; `Data` is `none` for a nil
interface. -/
structure MCPError where
  Code : Int
  Message : String
  Data : Option JSON

/-- MCPResponse represents an MCP JSON-RPC response; `Result` and `Error` are
`none` when nil. -/
structure MCPResponse where
  JSONRPC : String
  ID : JSON
  Result : Option JSON
  Error : Option MCPError

/-- The part of `*http.Request` the handler reads: the HTTP verb, the value
`json.Decode` left in `req` and whether it returned an error. -/
structure HTTPRequest where
  Method : String
  Body : MCPRequest
  decodeFails : Bool

/-- What a handler wrote to its `http.ResponseWriter`: the status code and the
encoded response, if any. -/
structure ResponseWriter where
  status : Nat
  body : Option MCPResponse

/-- Method sendResult sends a successful MCP response. -/
def sendResult (id : JSON) (result : JSON) : ResponseWriter :=
  { status := 200,
    body := some { JSONRPC := "2.0", ID := id, Result := some result, Error := none } }

/-- Method sendError sends an error MCP response, with status `400 Bad Request`. -/
def sendError (id : JSON) (code : Int) (message : String) (data : Option JSON) : ResponseWriter :=
  { status := 400,
    body := some { JSONRPC := "2.0", ID := id, Result := none,
                   Error := some { Code := code, Message := message, Data := data } } }

/-- The type assertion `args[key].(string)`: the string under the key, if the
key is there and holds a string. -/
def stringArg (args : List (String × JSON)) (key : String) : Option String :=
  match List.lookup key args with
  | some (.string v) => some v
  | _ => none

/-- The assignment `args, _ := paramsMap["arguments"].(map[string]interface{})`;
a nil map reads as the empty one. -/
def toolArguments (paramsMap : List (String × JSON)) : List (String × JSON) :=
  match List.lookup "arguments" paramsMap with
  | some (.object args) => args
  | _ => []

/-- The result map `content: [ {type: text, text: ...} ]` of a tool call. -/
def textContent (text : String) : JSON :=
  .object [("content", .array [.object [("type", .string "text"), ("text", .string text)]])]

/-- Schema entry of one property of a tool. -/
def schemaProperty (fields : List (String × String)) : JSON :=
  .object (fields.map (fun kv => (kv.1, JSON.string kv.2)))

/-- The `tools` slice of `handleToolsList`. -/
def toolCatalog : List JSON :=
  [ .object
      [("name", .string "create_todo"),
       ("description", .string "Creates a new todo with a description and creation date."),
       ("inputSchema", .object
          [("type", .string "object"),
           ("properties", .object
              [("description", schemaProperty
                  [("type", "string"), ("description", "Description of the todo")]),
               ("createdDate", schemaProperty
                  [("type", "string"), ("format", "date-time"),
                   ("description", "Creation date of the todo")])]),
           ("required", .array [.string "description", .string "createdDate"])])],
    .object
      [("name", .string "read_todos"),
       ("description", .string "Reads all todos, or a single todo if an id is provided."),
       ("inputSchema", .object
          [("type", .string "object"),
           ("properties", .object
              [("id", schemaProperty
                  [("type", "string"), ("description", "Id of the todo to read (optional)")])])])],
    .object
      [("name", .string "update_todo"),
       ("description", .string "Updates the specified todo fields by id."),
       ("inputSchema", .object
          [("type", .string "object"),
           ("properties", .object
              [("id", schemaProperty
                  [("type", "string"), ("description", "Id of the todo to update")]),
               ("description", schemaProperty
                  [("type", "string"), ("description", "New description (optional)")]),
               ("createdDate", schemaProperty
                  [("type", "string"), ("format", "date-time"),
                   ("description", "New creation date (optional)")])]),
           ("required", .array [.string "id"])])],
    .object
      [("name", .string "delete_todo"),
       ("description", .string "Deletes a todo by id."),
       ("inputSchema", .object
          [("type", .string "object"),
           ("properties", .object
              [("id", schemaProperty
                  [("type", "string"), ("description", "Id of the todo to delete")])]),
           ("required", .array [.string "id"])])] ]

/-- Method handleToolsList returns the list of available MCP tools. -/
def MCPServer.handleToolsList (s : MCPServer) (req : MCPRequest) : ResponseWriter × MCPServer :=
  (sendResult req.ID (.object [("tools", .array toolCatalog)]), s)

/-- Method handleCreateTodo handles create_todo tool calls. -/
def MCPServer.handleCreateTodo (s : MCPServer) (lib : Stdlib) (drv : Driver) (req : MCPRequest)
    (args : List (String × JSON)) : ResponseWriter × MCPServer :=
  match stringArg args "description" with
  | none => (sendError req.ID (-32602) "Missing or invalid description" none, s)
  | some description =>
    match stringArg args "createdDate" with
    | none => (sendError req.ID (-32602) "Missing or invalid createdDate" none, s)
    | some createdDateStr =>
      match lib.parseRFC3339 createdDateStr with
      | none => (sendError req.ID (-32602) "Invalid date format" none, s)
      | some createdDate =>
        match s.todosTool.CreateTodoAsync drv description createdDate with
        | (.error _, tool) => (sendError req.ID (-32603) "Internal error" none, { todosTool := tool })
        | (.ok result, tool) => (sendResult req.ID (textContent result), { todosTool := tool })

/-- Method formatTodosAsJSON formats todos as JSON string for response.  A
slice is a list here, so the text of an empty result is left to `marshalTodos`:
the model does not tell the nil slice of a store read without rows from the
empty slice the dispatcher returns for an id that does not parse. -/
def formatTodosAsJSON (lib : Stdlib) (todos : List Todo) : String :=
  match lib.marshalTodos todos with
  | none => "[]"
  | some jsonBytes => jsonBytes

/-- Method handleReadTodos handles read_todos tool calls. -/
def MCPServer.handleReadTodos (s : MCPServer) (lib : Stdlib) (drv : Driver) (req : MCPRequest)
    (args : List (String × JSON)) : ResponseWriter × MCPServer :=
  let id := stringArg args "id"
  match s.todosTool.ReadTodosAsync drv id with
  | .error _ => (sendError req.ID (-32603) "Internal error" none, s)
  | .ok todos => (sendResult req.ID (textContent (formatTodosAsJSON lib todos)), s)

/-- The optional `createdDate` of `handleUpdateTodo`: set only when the
argument is a string that parses. -/
def dateArg (lib : Stdlib) (args : List (String × JSON)) : Option Time :=
  match stringArg args "createdDate" with
  | some dateString => lib.parseRFC3339 dateString
  | none => none

/-- Method handleUpdateTodo handles update_todo tool calls. -/
def MCPServer.handleUpdateTodo (s : MCPServer) (lib : Stdlib) (drv : Driver) (req : MCPRequest)
    (args : List (String × JSON)) : ResponseWriter × MCPServer :=
  match stringArg args "id" with
  | none => (sendError req.ID (-32602) "Missing or invalid id" none, s)
  | some id =>
    let description := stringArg args "description"
    let createdDate := dateArg lib args
    match s.todosTool.UpdateTodoAsync drv id description createdDate with
    | (.error _, tool) => (sendError req.ID (-32603) "Internal error" none, { todosTool := tool })
    | (.ok result, tool) => (sendResult req.ID (textContent result), { todosTool := tool })

/-- Method handleDeleteTodo handles delete_todo tool calls. -/
def MCPServer.handleDeleteTodo (s : MCPServer) (drv : Driver) (req : MCPRequest)
    (args : List (String × JSON)) : ResponseWriter × MCPServer :=
  match stringArg args "id" with
  | none => (sendError req.ID (-32602) "Missing or invalid id" none, s)
  | some id =>
    match s.todosTool.DeleteTodoAsync drv id with
    | (.error _, tool) => (sendError req.ID (-32603) "Internal error" none, { todosTool := tool })
    | (.ok result, tool) => (sendResult req.ID (textContent result), { todosTool := tool })

/-- Method handleToolsCall executes a tool call. -/
def MCPServer.handleToolsCall (s : MCPServer) (lib : Stdlib) (drv : Driver) (req : MCPRequest) :
    ResponseWriter × MCPServer :=
  match req.Params with
  | .object paramsMap =>
    match stringArg paramsMap "name" with
    | none => (sendError req.ID (-32602) "Missing tool name" none, s)
    | some toolName =>
      let args := toolArguments paramsMap
      if toolName = "create_todo" then s.handleCreateTodo lib drv req args
      else if toolName = "read_todos" then s.handleReadTodos lib drv req args
      else if toolName = "update_todo" then s.handleUpdateTodo lib drv req args
      else if toolName = "delete_todo" then s.handleDeleteTodo drv req args
      else (sendError req.ID (-32601) "Unknown tool" none, s)
  | _ => (sendError req.ID (-32602) "Invalid params" none, s)

/-- HandleMCP handles MCP protocol requests (the CORS headers it sets on every
response are left out). -/
def MCPServer.HandleMCP (s : MCPServer) (lib : Stdlib) (drv : Driver) (r : HTTPRequest) :
    ResponseWriter × MCPServer :=
  if r.Method = "OPTIONS" then ({ status := 200, body := none }, s)
  else if r.Method ≠ "POST" then ({ status := 405, body := none }, s)
  else if r.decodeFails then (sendError r.Body.ID (-32700) "Parse error" none, s)
  else if r.Body.Method = "tools/list" then s.handleToolsList r.Body
  else if r.Body.Method = "tools/call" then s.handleToolsCall lib drv r.Body
  else (sendError r.Body.ID (-32601) "Method not found" none, s)

/-- The argument map without the entries of one key. -/
def dropKey (key : String) (args : List (String × JSON)) : List (String × JSON) :=
  args.filter (fun kv => decide (kv.1 ≠ key))

/-- A todo with its date as the driver stores it: what a row made from the todo
reads back as. -/
def Todo.asStored (t : Todo) : Todo :=
  { t with CreatedDate := sqliteDatetime t.CreatedDate }

/-! ## Histories of store calls -/

/-- One call on the store, with the driver it runs on. -/
inductive StoreOp where
  | create (drv : Driver) (input : CreateTodoInput)
  | update (drv : Driver) (id : Int) (input : UpdateTodoInput)
  | delete (drv : Driver) (id : Int)
deriving DecidableEq, Repr

/-- Store a call leaves behind. -/
def StoreOp.apply (ctx : DatabaseContext) : StoreOp → DatabaseContext
  | .create drv input => (ctx.CreateTodoAsync drv input).2
  | .update drv id input => (ctx.UpdateTodoAsync drv id input).2
  | .delete drv id => (ctx.DeleteTodoAsync drv id).2

/-- Id a call hands out: the id of the todo a successful create returns. -/
def StoreOp.assignedId (ctx : DatabaseContext) : StoreOp → Option Int
  | .create drv input =>
    match (ctx.CreateTodoAsync drv input).1 with
    | .ok todo => some todo.ID
    | .error _ => none
  | .update _ _ _ => none
  | .delete _ _ => none

/-- Store after a sequence of calls. -/
def runOps (ctx : DatabaseContext) (ops : List StoreOp) : DatabaseContext :=
  ops.foldl StoreOp.apply ctx

/-- Ids handed out along a sequence of calls, oldest first. -/
def assignedIds (ctx : DatabaseContext) : List StoreOp → List Int
  | [] => []
  | op :: ops => (op.assignedId ctx).toList ++ assignedIds (op.apply ctx) ops

/-- Store states reachable from the empty store by create, update and delete. -/
def Reachable (ctx : DatabaseContext) : Prop :=
  ∃ ops, runOps NewInMemoryDatabaseContext ops = ctx

/-- Todos returned by, and store left after, one successful create per input. -/
def createAll (ctx : DatabaseContext) : List CreateTodoInput → List Todo × DatabaseContext
  | [] => ([], ctx)
  | input :: inputs =>
    match ctx.CreateTodoAsync Driver.healthy input with
    | (.ok todo, ctx') => (todo :: (createAll ctx' inputs).1, (createAll ctx' inputs).2)
    | (.error _, ctx') => createAll ctx' inputs

/-- Table invariant: ids are positive, strictly ascending along the table and
bounded by the id sequence. -/
def TableOk (ctx : DatabaseContext) : Prop :=
  (∀ r ∈ ctx.rows, 0 < r.ID ∧ r.ID ≤ ctx.seq) ∧
  ctx.rows.Pairwise (fun a b => a.ID < b.ID)

/-! ## Basic facts about the library functions -/

theorem dropWhile_eq_nil_iff_all (p : Char → Bool) (l : List Char) :
    l.dropWhile p = [] ↔ l.all p = true := by
  induction l with
  | nil => simp
  | cons a l ih =>
    by_cases h : p a = true
    · simp [List.dropWhile_cons, h, ih]
    · simp [List.dropWhile_cons, h]

/-- A string is blank after trimming exactly when all its characters are white space. -/
theorem TrimSpace_eq_empty_iff (s : String) :
    TrimSpace s = "" ↔ s.data.all isSpace = true := by
  unfold TrimSpace
  constructor
  · intro h
    have h1 : ((s.data.dropWhile isSpace).reverse.dropWhile isSpace).reverse = [] := by
      have := congrArg String.data h
      simpa using this
    have h2 : (s.data.dropWhile isSpace).reverse.dropWhile isSpace = [] := by
      simpa using h1
    by_contra hne
    have h3 : s.data.dropWhile isSpace ≠ [] := by
      intro h4; exact hne ((dropWhile_eq_nil_iff_all _ _).1 h4)
    obtain ⟨a, l, hl⟩ := List.exists_cons_of_ne_nil h3
    have ha : isSpace a = false := by
      have := List.head_dropWhile_not isSpace s.data h3
      simpa [hl] using this
    rw [dropWhile_eq_nil_iff_all] at h2
    have : isSpace a = true := by
      have h5 := List.all_eq_true.1 h2 a (by simp [hl])
      exact h5
    simp [ha] at this
  · intro h
    have h1 : s.data.dropWhile isSpace = [] := (dropWhile_eq_nil_iff_all _ _).2 h
    simp [h1]

theorem selectExists_eq_true_iff (ctx : DatabaseContext) (id : Int) :
    selectExists ctx id = true ↔ ctx.hasRow id := by
  simp [selectExists, DatabaseContext.hasRow]

theorem selectExists_eq_decide (ctx : DatabaseContext) (id : Int) :
    selectExists ctx id = decide (ctx.hasRow id) := by
  by_cases h : ctx.hasRow id
  · simp [h, (selectExists_eq_true_iff ctx id).2 h]
  · have : selectExists ctx id = false := by
      cases hs : selectExists ctx id with
      | false => rfl
      | true => exact absurd ((selectExists_eq_true_iff ctx id).1 hs) h
    simp [h, this]

theorem todoExists_healthy (ctx : DatabaseContext) (id : Int) :
    ctx.todoExists Driver.healthy id = .ok (decide (ctx.hasRow id)) := by
  simp [DatabaseContext.todoExists, Driver.healthy, selectExists_eq_decide]

/-! ## Dates through the driver -/

theorem sqliteDatetime_of_storable (t : Time) (h : t.storable) : sqliteDatetime t = t := by
  obtain ⟨u, o⟩ := t
  obtain ⟨h1, h2, h3, h4, h5⟩ := h
  simp only at h1 h2 h3 h4 h5
  have hz : zoneMinutes o * 60 = o := by
    unfold zoneMinutes
    split <;> omega
  have hb : -1500 < zoneMinutes o ∧ zoneMinutes o < 1500 := by omega
  unfold sqliteDatetime
  simp only [h4, h5, hb.1, hb.2, and_self, if_true, hz, sub_self, zero_mul, add_zero]

theorem sqliteDatetime_idem (t : Time) : sqliteDatetime (sqliteDatetime t) = sqliteDatetime t := by
  apply sqliteDatetime_of_storable
  unfold sqliteDatetime
  simp only
  split
  · next h =>
    obtain ⟨h4, h5, h6, h7⟩ := h
    refine ⟨?_, ?_, ?_, ?_, ?_⟩ <;> simp only <;> omega
  · decide

/-! ## Store: update -/

theorem update_healthy_of_hasRow (ctx : DatabaseContext) (id : Int)
    (input : UpdateTodoInput) (h : ctx.hasRow id) :
    ctx.UpdateTodoAsync Driver.healthy id input =
      (.ok true,
       { rows := ctx.rows.map (fun r =>
           if r.ID = id then
             { ID := r.ID,
               Description :=
                 match input.Description with
                 | some d => if TrimSpace d = "" then r.Description else some d
                 | none => r.Description,
               CreatedDate :=
                 match input.CreatedDate with
                 | some t => sqliteDatetime t
                 | none => r.CreatedDate }
           else r),
         seq := ctx.seq }) := by
  obtain ⟨rows, seq⟩ := ctx
  obtain ⟨desc, date⟩ := input
  unfold DatabaseContext.UpdateTodoAsync
  rw [todoExists_healthy]
  simp only [h, decide_True]
  cases desc with
  | none =>
    cases date with
    | none => simp [buildSetParts]
    | some t => simp [buildSetParts, Driver.healthy, execUpdate, SetPart.assign]
  | some d =>
    by_cases hd : TrimSpace d = ""
    · cases date with
      | none => simp [buildSetParts, hd]
      | some t => simp [buildSetParts, hd, Driver.healthy, execUpdate, SetPart.assign]
    · cases date with
      | none => simp [buildSetParts, hd, Driver.healthy, execUpdate, SetPart.assign]
      | some t => simp [buildSetParts, hd, Driver.healthy, execUpdate, SetPart.assign]

/-- C1 (amended): on a healthy driver, `UpdateTodoAsync` on an id that has a row
returns `true` and rewrites exactly the rows with that id: the description
becomes the given one, verbatim, when it is present and not blank after
trimming, and is kept otherwise; the date becomes the given one as the driver
stores it when one is present, and is kept otherwise; the id, all other rows,
the row order and the id sequence are unchanged.  The stored date is the given
date itself whenever that date has an offset of whole minutes, less than 25
hours in size, and a wall-clock year from 0 to 9999. -/
theorem update_existing_changes_only_that_row (ctx : DatabaseContext) (id : Int)
    (input : UpdateTodoInput) (h : ctx.hasRow id) :
    ctx.UpdateTodoAsync Driver.healthy id input =
      (.ok true,
       { rows := ctx.rows.map (fun r =>
           if r.ID = id then
             { ID := r.ID,
               Description :=
                 match input.Description with
                 | some d => if TrimSpace d = "" then r.Description else some d
                 | none => r.Description,
               CreatedDate :=
                 match input.CreatedDate with
                 | some t => sqliteDatetime t
                 | none => r.CreatedDate }
           else r),
         seq := ctx.seq }) ∧
    ∀ t : Time, input.CreatedDate = some t → t.storable → sqliteDatetime t = t :=
  ⟨update_healthy_of_hasRow ctx id input h, fun t _ ht => sqliteDatetime_of_storable t ht⟩

/-- Witness for C1: the second of two rows is updated with a description that
has blanks around it and with a date at offset +01:00, both stored as given. -/
theorem update_existing_changes_only_that_row_witness :
    (DatabaseContext.mk [⟨1, some "a", ⟨0, 0⟩⟩, ⟨2, some "b", ⟨5, 0⟩⟩] 2).UpdateTodoAsync
        Driver.healthy 2 ⟨some " c ", some ⟨1704067200000000001, 3600⟩⟩ =
      (.ok true,
        DatabaseContext.mk
          [⟨1, some "a", ⟨0, 0⟩⟩, ⟨2, some " c ", ⟨1704067200000000001, 3600⟩⟩] 2) ∧
    sqliteDatetime ⟨1704067200000000001, 3600⟩ = ⟨1704067200000000001, 3600⟩ := by
  have h := update_existing_changes_only_that_row
    (DatabaseContext.mk [⟨1, some "a", ⟨0, 0⟩⟩, ⟨2, some "b", ⟨5, 0⟩⟩] 2) 2
    ⟨some " c ", some ⟨1704067200000000001, 3600⟩⟩ (by decide)
  refine ⟨?_, h.2 _ rfl (by decide)⟩
  rw [h.1]
  decide

/-- Counterexample to C1 as the specification states it: a date 100 s after the epoch at offset
+00:30:30 is not what the row holds after the update; the row holds 130 s after
the epoch at offset +00:30. -/
theorem update_existing_changes_only_that_row_counterexample :
    (DatabaseContext.mk [⟨1, some "a", ⟨0, 0⟩⟩, ⟨2, some "b", ⟨5, 0⟩⟩] 2).hasRow 2 ∧
    (DatabaseContext.mk [⟨1, some "a", ⟨0, 0⟩⟩, ⟨2, some "b", ⟨5, 0⟩⟩] 2).UpdateTodoAsync
        Driver.healthy 2 ⟨none, some ⟨100000000000, 1830⟩⟩ =
      (.ok true,
        DatabaseContext.mk [⟨1, some "a", ⟨0, 0⟩⟩, ⟨2, some "b", ⟨130000000000, 1800⟩⟩] 2) ∧
    (DatabaseContext.mk [⟨1, some "a", ⟨0, 0⟩⟩, ⟨2, some "b", ⟨5, 0⟩⟩] 2).UpdateTodoAsync
        Driver.healthy 2 ⟨none, some ⟨100000000000, 1830⟩⟩ ≠
      (.ok true,
        DatabaseContext.mk [⟨1, some "a", ⟨0, 0⟩⟩, ⟨2, some "b", ⟨100000000000, 1830⟩⟩] 2) := by
  decide

/-- C2: on a healthy driver, `UpdateTodoAsync` on an id that has a row, with no
date and a description that is absent, empty or made of white space only,
returns `true` without error and leaves the store as it was. -/
theorem update_without_applicable_fields_is_noop (ctx : DatabaseContext) (id : Int)
    (input : UpdateTodoInput) (h : ctx.hasRow id)
    (hdesc : ∀ d, input.Description = some d → d.data.all isSpace = true)
    (hdate : input.CreatedDate = none) :
    ctx.UpdateTodoAsync Driver.healthy id input = (.ok true, ctx) := by
  obtain ⟨desc, date⟩ := input
  simp only at hdesc hdate
  subst hdate
  unfold DatabaseContext.UpdateTodoAsync
  rw [todoExists_healthy]
  simp only [h, decide_True]
  cases desc with
  | none => simp [buildSetParts]
  | some d =>
    have hd : TrimSpace d = "" := (TrimSpace_eq_empty_iff d).2 (hdesc d rfl)
    simp [buildSetParts, hd]

/-- Witness for C2: a tab-and-space description on an existing row. -/
theorem update_without_applicable_fields_is_noop_witness :
    (DatabaseContext.mk [⟨1, some "a", ⟨0, 0⟩⟩] 1).UpdateTodoAsync Driver.healthy 1
        ⟨some " \t", none⟩ =
      (.ok true, DatabaseContext.mk [⟨1, some "a", ⟨0, 0⟩⟩] 1) :=
  update_without_applicable_fields_is_noop (DatabaseContext.mk [⟨1, some "a", ⟨0, 0⟩⟩] 1) 1
    ⟨some " \t", none⟩ (by decide)
    (by intro d hd; cases hd; decide) rfl

/-- C3: on a healthy driver, `UpdateTodoAsync` on an id that has no row returns
`false` without error, whatever fields the input carries, and the store is
unchanged. -/
theorem update_missing_row_returns_false (ctx : DatabaseContext) (id : Int)
    (input : UpdateTodoInput) (h : ¬ ctx.hasRow id) :
    ctx.UpdateTodoAsync Driver.healthy id input = (.ok false, ctx) := by
  unfold DatabaseContext.UpdateTodoAsync
  rw [todoExists_healthy]
  simp [h]

/-- Witness for C3: id 999 on a one-row store, with both fields present. -/
theorem update_missing_row_returns_false_witness :
    (DatabaseContext.mk [⟨1, some "a", ⟨0, 0⟩⟩] 1).UpdateTodoAsync Driver.healthy 999
        ⟨some "New description", some ⟨7, 3600⟩⟩ =
      (.ok false, DatabaseContext.mk [⟨1, some "a", ⟨0, 0⟩⟩] 1) :=
  update_missing_row_returns_false (DatabaseContext.mk [⟨1, some "a", ⟨0, 0⟩⟩] 1) 999
    ⟨some "New description", some ⟨7, 3600⟩⟩ (by decide)

/-! ## Store: delete -/

theorem not_hasRow_execDelete (ctx : DatabaseContext) (id : Int) :
    ¬ (execDelete ctx id).hasRow id := by
  simp [execDelete, DatabaseContext.hasRow]

theorem delete_healthy_eq (ctx : DatabaseContext) (id : Int) :
    ctx.DeleteTodoAsync Driver.healthy id =
      (.ok (decide (ctx.hasRow id)),
        { rows := ctx.rows.filter (fun r => decide (r.ID ≠ id)), seq := ctx.seq }) := by
  unfold DatabaseContext.DeleteTodoAsync
  rw [todoExists_healthy]
  by_cases h : ctx.hasRow id
  · simp [h, Driver.healthy, execDelete]
  · have hf : ctx.rows.filter (fun r => decide (r.ID ≠ id)) = ctx.rows := by
      apply List.filter_eq_self.2
      intro r hr
      have : r.ID ≠ id := fun e => h ⟨r, hr, e⟩
      simp [this]
    rw [hf]
    simp [h]

theorem delete_missing_row (ctx : DatabaseContext) (id : Int) (h : ¬ ctx.hasRow id) :
    ctx.DeleteTodoAsync Driver.healthy id = (.ok false, ctx) := by
  unfold DatabaseContext.DeleteTodoAsync
  rw [todoExists_healthy]
  simp [h]

/-- C4: on a healthy driver, `DeleteTodoAsync` returns without error the truth
value of "a row with that id existed"; afterwards the table is the old one
without the rows of that id (the others in their old order, the id sequence
untouched), no row has the id, and a second delete of the same id returns
`false` and changes nothing. -/
theorem delete_returns_existence_and_removes_row (ctx : DatabaseContext) (id : Int) :
    (ctx.DeleteTodoAsync Driver.healthy id).1 = .ok (decide (ctx.hasRow id)) ∧
    (ctx.DeleteTodoAsync Driver.healthy id).2 =
      { rows := ctx.rows.filter (fun r => decide (r.ID ≠ id)), seq := ctx.seq } ∧
    ¬ (ctx.DeleteTodoAsync Driver.healthy id).2.hasRow id ∧
    (ctx.DeleteTodoAsync Driver.healthy id).2.DeleteTodoAsync Driver.healthy id =
      (.ok false, (ctx.DeleteTodoAsync Driver.healthy id).2) := by
  have hno : ¬ (ctx.DeleteTodoAsync Driver.healthy id).2.hasRow id := by
    rw [delete_healthy_eq]
    exact not_hasRow_execDelete ctx id
  refine ⟨by rw [delete_healthy_eq], by rw [delete_healthy_eq], hno, ?_⟩
  exact delete_missing_row _ id hno

/-! ## Invariant of reachable stores -/

theorem le_foldl_max (rows : List Todo) (m : Int) :
    m ≤ rows.foldl (fun m r => max m r.ID) m ∧
    ∀ r ∈ rows, r.ID ≤ rows.foldl (fun m r => max m r.ID) m := by
  induction rows generalizing m with
  | nil => simp
  | cons a l ih =>
    simp only [List.foldl_cons, List.mem_cons, forall_eq_or_imp]
    have h1 := (ih (max m a.ID)).1
    refine ⟨le_trans (le_max_left _ _) h1, le_trans (le_max_right _ _) h1, (ih _).2⟩

theorem seq_lt_nextRowid (ctx : DatabaseContext) : ctx.seq < nextRowid ctx := by
  unfold nextRowid
  have := (le_foldl_max ctx.rows (max ctx.seq 0)).1
  have := le_max_left ctx.seq 0
  omega

theorem zero_lt_nextRowid (ctx : DatabaseContext) : 0 < nextRowid ctx := by
  unfold nextRowid
  have := (le_foldl_max ctx.rows (max ctx.seq 0)).1
  have := le_max_right ctx.seq 0
  omega

theorem row_lt_nextRowid (ctx : DatabaseContext) (r : Todo) (hr : r ∈ ctx.rows) :
    r.ID < nextRowid ctx := by
  unfold nextRowid
  have := (le_foldl_max ctx.rows (max ctx.seq 0)).2 r hr
  omega

theorem create_healthy_eq (ctx : DatabaseContext) (input : CreateTodoInput) :
    ctx.CreateTodoAsync Driver.healthy input =
      (.ok { ID := nextRowid ctx, Description := some input.Description,
             CreatedDate := input.CreatedDate },
       { rows := ctx.rows ++ [{ ID := nextRowid ctx, Description := some input.Description,
                                CreatedDate := sqliteDatetime input.CreatedDate }],
         seq := nextRowid ctx }) := by
  simp [DatabaseContext.CreateTodoAsync, Driver.healthy, execInsert]

theorem create_state_cases (ctx : DatabaseContext) (drv : Driver) (input : CreateTodoInput) :
    (ctx.CreateTodoAsync drv input).2 = ctx ∨
    (ctx.CreateTodoAsync drv input).2 = (execInsert ctx input.Description input.CreatedDate).2 := by
  unfold DatabaseContext.CreateTodoAsync
  cases drv.insertErr <;> simp

theorem update_state_cases (ctx : DatabaseContext) (drv : Driver) (id : Int)
    (input : UpdateTodoInput) :
    (ctx.UpdateTodoAsync drv id input).2 = ctx ∨
    (ctx.UpdateTodoAsync drv id input).2 = execUpdate ctx (buildSetParts input) id := by
  unfold DatabaseContext.UpdateTodoAsync
  cases ctx.todoExists drv id with
  | error e => simp
  | ok b =>
    cases b with
    | false => simp
    | true =>
      by_cases hl : (buildSetParts input).length = 0
      · simp [hl]
      · cases hu : drv.updateErr <;> simp [hl]

theorem delete_state_cases (ctx : DatabaseContext) (drv : Driver) (id : Int) :
    (ctx.DeleteTodoAsync drv id).2 = ctx ∨
    (ctx.DeleteTodoAsync drv id).2 = execDelete ctx id := by
  unfold DatabaseContext.DeleteTodoAsync
  cases ctx.todoExists drv id with
  | error e => simp
  | ok b =>
    cases b with
    | false => simp
    | true => cases hu : drv.deleteErr <;> simp

theorem foldl_assign_ID (parts : List SetPart) (r : Todo) :
    (parts.foldl SetPart.assign r).ID = r.ID := by
  induction parts generalizing r with
  | nil => rfl
  | cons p ps ih =>
    simp only [List.foldl_cons]
    rw [ih]
    cases p <;> rfl

theorem execUpdate_ids (ctx : DatabaseContext) (parts : List SetPart) (id : Int) :
    (execUpdate ctx parts id).rows.map Todo.ID = ctx.rows.map Todo.ID := by
  simp only [execUpdate, List.map_map]
  apply List.map_congr_left
  intro r _
  simp only [Function.comp]
  split
  · exact foldl_assign_ID parts r
  · rfl

theorem tableOk_iff_ids (ctx : DatabaseContext) :
    TableOk ctx ↔
      (∀ i ∈ ctx.rows.map Todo.ID, 0 < i ∧ i ≤ ctx.seq) ∧
      (ctx.rows.map Todo.ID).Pairwise (fun a b => a < b) := by
  simp [TableOk, List.pairwise_map]

theorem tableOk_empty : TableOk NewInMemoryDatabaseContext := by
  simp [TableOk, NewInMemoryDatabaseContext]

theorem tableOk_execInsert (ctx : DatabaseContext) (d : String) (t : Time) (h : TableOk ctx) :
    TableOk (execInsert ctx d t).2 := by
  obtain ⟨h1, h2⟩ := h
  simp only [TableOk, execInsert, List.mem_append, List.mem_singleton]
  constructor
  · intro r hr
    rcases hr with hr | rfl
    · exact ⟨(h1 r hr).1, le_of_lt (row_lt_nextRowid ctx r hr)⟩
    · exact ⟨zero_lt_nextRowid ctx, le_refl _⟩
  · rw [List.pairwise_append]
    refine ⟨h2, by simp, ?_⟩
    intro a ha b hb
    simp only [List.mem_singleton] at hb
    subst hb
    exact row_lt_nextRowid ctx a ha

theorem tableOk_execUpdate (ctx : DatabaseContext) (parts : List SetPart) (id : Int)
    (h : TableOk ctx) : TableOk (execUpdate ctx parts id) := by
  rw [tableOk_iff_ids] at h ⊢
  rw [execUpdate_ids]
  exact h

theorem tableOk_execDelete (ctx : DatabaseContext) (id : Int) (h : TableOk ctx) :
    TableOk (execDelete ctx id) := by
  obtain ⟨h1, h2⟩ := h
  constructor
  · intro r hr
    exact h1 r (List.mem_of_mem_filter hr)
  · exact h2.sublist (List.filter_sublist _)

theorem tableOk_apply (ctx : DatabaseContext) (op : StoreOp) (h : TableOk ctx) :
    TableOk (op.apply ctx) := by
  cases op with
  | create drv input =>
    rcases create_state_cases ctx drv input with e | e
    · simp only [StoreOp.apply, e]; exact h
    · simp only [StoreOp.apply, e]; exact tableOk_execInsert ctx _ _ h
  | update drv id input =>
    rcases update_state_cases ctx drv id input with e | e
    · simp only [StoreOp.apply, e]; exact h
    · simp only [StoreOp.apply, e]; exact tableOk_execUpdate ctx _ _ h
  | delete drv id =>
    rcases delete_state_cases ctx drv id with e | e
    · simp only [StoreOp.apply, e]; exact h
    · simp only [StoreOp.apply, e]; exact tableOk_execDelete ctx _ h

theorem tableOk_runOps (ctx : DatabaseContext) (ops : List StoreOp) (h : TableOk ctx) :
    TableOk (runOps ctx ops) := by
  induction ops generalizing ctx with
  | nil => exact h
  | cons op ops ih => exact ih _ (tableOk_apply ctx op h)

theorem tableOk_of_reachable (ctx : DatabaseContext) (h : Reachable ctx) : TableOk ctx := by
  obtain ⟨ops, rfl⟩ := h
  exact tableOk_runOps _ ops tableOk_empty

/-! ## Store: create and read -/

theorem orderById_of_ascending (rows : List Todo)
    (h : rows.Pairwise (fun a b => a.ID < b.ID)) : orderById rows = rows := by
  unfold orderById
  apply List.Sorted.insertionSort_eq
  exact h.imp (fun hab => le_of_lt hab)

theorem read_healthy_all (ctx : DatabaseContext) :
    ctx.ReadTodosAsync Driver.healthy [] = .ok (orderById ctx.rows) := by
  unfold DatabaseContext.ReadTodosAsync
  simp only [Driver.healthy, selectAll]
  split <;> simp_all

theorem read_healthy_by_id (ctx : DatabaseContext) (id : Int) (h : 0 < id) :
    ctx.ReadTodosAsync Driver.healthy [id] =
      .ok (orderById (ctx.rows.filter (fun r => decide (r.ID = id)))) := by
  unfold DatabaseContext.ReadTodosAsync
  simp only [Driver.healthy, selectById, gt_iff_lt, h, if_true]
  split <;> simp_all

theorem filter_id_of_ascending (rows : List Todo) (id : Int)
    (h : rows.Pairwise (fun a b => a.ID < b.ID)) :
    (rows.filter (fun r => decide (r.ID = id))).length ≤ 1 ∧
    ∀ r ∈ rows, r.ID = id → rows.filter (fun r => decide (r.ID = id)) = [r] := by
  induction rows with
  | nil => simp
  | cons a l ih =>
    rw [List.pairwise_cons] at h
    obtain ⟨ha, hl⟩ := h
    obtain ⟨ih1, ih2⟩ := ih hl
    by_cases e : a.ID = id
    · have hnil : l.filter (fun r => decide (r.ID = id)) = [] := by
        rw [List.filter_eq_nil_iff]
        intro b hb
        have := ha b hb
        simp only [decide_eq_true_eq]
        omega
      constructor
      · simp [List.filter_cons, e, hnil]
      · intro r hr hrid
        rcases List.mem_cons.1 hr with rfl | hr
        · simp [List.filter_cons, e, hnil]
        · have := ha r hr
          omega
    · constructor
      · simpa [List.filter_cons, e] using ih1
      · intro r hr hrid
        rcases List.mem_cons.1 hr with rfl | hr
        · exact absurd hrid e
        · simpa [List.filter_cons, e] using ih2 r hr hrid

theorem filter_id_of_no_row (ctx : DatabaseContext) (id : Int) (h : ¬ ctx.hasRow id) :
    ctx.rows.filter (fun r => decide (r.ID = id)) = [] := by
  rw [List.filter_eq_nil_iff]
  intro r hr
  simp only [decide_eq_true_eq]
  exact fun e => h ⟨r, hr, e⟩

theorem read_by_id_tableOk (ctx : DatabaseContext) (id : Int) (hok : TableOk ctx) (h : 0 < id) :
    ctx.ReadTodosAsync Driver.healthy [id] =
      .ok (ctx.rows.filter (fun r => decide (r.ID = id))) := by
  rw [read_healthy_by_id ctx id h, orderById_of_ascending]
  exact hok.2.sublist (List.filter_sublist _)

/-- C5 (amended): in a reachable store, on a healthy driver, `CreateTodoAsync`
returns a todo with the given description and date and an id that is positive
and borne by no row before the call; reading that id right afterwards returns
exactly one todo, with that id and description and with the date as the driver
stores it.  When the given date has an offset of whole minutes, less than 25
hours in size, and a wall-clock year from 0 to 9999, the todo read is exactly
the todo returned, date included. -/
theorem create_then_read_by_id (ctx : DatabaseContext) (input : CreateTodoInput)
    (h : Reachable ctx) :
    ∃ todo : Todo,
      (ctx.CreateTodoAsync Driver.healthy input).1 = .ok todo ∧
      todo.Description = some input.Description ∧
      todo.CreatedDate = input.CreatedDate ∧
      0 < todo.ID ∧ ¬ ctx.hasRow todo.ID ∧
      (ctx.CreateTodoAsync Driver.healthy input).2.ReadTodosAsync Driver.healthy [todo.ID] =
        .ok [{ ID := todo.ID, Description := todo.Description,
               CreatedDate := sqliteDatetime todo.CreatedDate }] ∧
      (input.CreatedDate.storable →
        (ctx.CreateTodoAsync Driver.healthy input).2.ReadTodosAsync Driver.healthy [todo.ID] =
          .ok [todo]) := by
  have hok := tableOk_of_reachable ctx h
  have hread : (ctx.CreateTodoAsync Driver.healthy input).2.ReadTodosAsync Driver.healthy
      [nextRowid ctx] =
      .ok [{ ID := nextRowid ctx, Description := some input.Description,
             CreatedDate := sqliteDatetime input.CreatedDate }] := by
    have hok2 : TableOk (ctx.CreateTodoAsync Driver.healthy input).2 :=
      tableOk_apply ctx (.create Driver.healthy input) hok
    rw [read_by_id_tableOk _ _ hok2 (zero_lt_nextRowid ctx)]
    congr 1
    apply (filter_id_of_ascending _ _ hok2.2).2
    · rw [create_healthy_eq]
      simp
    · rfl
  refine ⟨{ ID := nextRowid ctx, Description := some input.Description,
            CreatedDate := input.CreatedDate }, ?_, rfl, rfl, zero_lt_nextRowid ctx, ?_,
          hread, ?_⟩
  · rw [create_healthy_eq]
  · rintro ⟨r, hr, e⟩
    have := row_lt_nextRowid ctx r hr
    simp only at e
    omega
  · intro hs
    rw [hread, sqliteDatetime_of_storable _ hs]

/-- Witness for C5: a create, with a date at offset +01:00, on the store left by
a create and a delete; the todo read is the todo returned. -/
theorem create_then_read_by_id_witness :
    ∃ todo : Todo,
      ((DatabaseContext.mk [] 1).CreateTodoAsync Driver.healthy ⟨"Buy milk", ⟨17, 3600⟩⟩).1 =
        .ok todo ∧
      todo.Description = some "Buy milk" ∧
      todo.CreatedDate = ⟨17, 3600⟩ ∧
      0 < todo.ID ∧ ¬ (DatabaseContext.mk [] 1).hasRow todo.ID ∧
      ((DatabaseContext.mk [] 1).CreateTodoAsync Driver.healthy
          ⟨"Buy milk", ⟨17, 3600⟩⟩).2.ReadTodosAsync Driver.healthy [todo.ID] = .ok [todo] := by
  obtain ⟨todo, h1, h2, h3, h4, h5, _, h7⟩ :=
    create_then_read_by_id (DatabaseContext.mk [] 1) ⟨"Buy milk", ⟨17, 3600⟩⟩
      ⟨[.create Driver.healthy ⟨"x", ⟨0, 0⟩⟩, .delete Driver.healthy 1], by decide⟩
  exact ⟨todo, h1, h2, h3, h4, h5, h7 (by decide)⟩

/-- Counterexample to C5 as the specification states it: on the empty store, a create with the
epoch at offset +01:00:01 returns that date, and the read that follows returns
one second after the epoch at offset +01:00. -/
theorem create_then_read_by_id_counterexample :
    Reachable NewInMemoryDatabaseContext ∧
    (NewInMemoryDatabaseContext.CreateTodoAsync Driver.healthy ⟨"x", ⟨0, 3601⟩⟩).1 =
      .ok ⟨1, some "x", ⟨0, 3601⟩⟩ ∧
    (NewInMemoryDatabaseContext.CreateTodoAsync Driver.healthy
        ⟨"x", ⟨0, 3601⟩⟩).2.ReadTodosAsync Driver.healthy [1] =
      .ok [⟨1, some "x", ⟨1000000000, 3600⟩⟩] ∧
    (NewInMemoryDatabaseContext.CreateTodoAsync Driver.healthy
        ⟨"x", ⟨0, 3601⟩⟩).2.ReadTodosAsync Driver.healthy [1] ≠
      .ok [⟨1, some "x", ⟨0, 3601⟩⟩] :=
  ⟨⟨[], rfl⟩, by decide, by decide, by decide⟩

theorem createAll_spec (ctx : DatabaseContext) (inputs : List CreateTodoInput)
    (h : TableOk ctx) :
    (createAll ctx inputs).2.rows = ctx.rows ++ (createAll ctx inputs).1.map Todo.asStored ∧
    TableOk (createAll ctx inputs).2 ∧
    (createAll ctx inputs).1.length = inputs.length ∧
    (createAll ctx inputs).1.map (fun t => (t.Description, t.CreatedDate)) =
      inputs.map (fun i => (some i.Description, i.CreatedDate)) := by
  induction inputs generalizing ctx with
  | nil => simp [createAll, h]
  | cons input inputs ih =>
    have hok2 : TableOk (ctx.CreateTodoAsync Driver.healthy input).2 :=
      tableOk_apply ctx (.create Driver.healthy input) h
    rw [create_healthy_eq] at hok2
    obtain ⟨i1, i2, i3, i4⟩ := ih _ hok2
    simp only [createAll, create_healthy_eq]
    refine ⟨?_, i2, ?_, ?_⟩
    · rw [i1]; simp [Todo.asStored]
    · simp [i3]
    · simp [i4]

theorem pairwise_asStored (l : List Todo) (h : (l.map Todo.asStored).Pairwise
    (fun a b => a.ID < b.ID)) : l.Pairwise (fun a b => a.ID < b.ID) := by
  rw [List.pairwise_map] at h
  exact h

/-- C6: after one create per element of `inputs` on the empty store, on a
healthy driver, reading without an id returns without error exactly the todos
the creates returned, each with its date as the driver stores it, in creation
order: as many as there were creates, with strictly ascending ids, carrying
the inputs in order.  For no create at all the result is the empty list. -/
theorem read_all_after_creates (inputs : List CreateTodoInput) :
    (createAll NewInMemoryDatabaseContext inputs).2.ReadTodosAsync Driver.healthy [] =
      .ok ((createAll NewInMemoryDatabaseContext inputs).1.map
        (fun t => { ID := t.ID, Description := t.Description,
                    CreatedDate := sqliteDatetime t.CreatedDate })) ∧
    (createAll NewInMemoryDatabaseContext inputs).1.length = inputs.length ∧
    (createAll NewInMemoryDatabaseContext inputs).1.Pairwise (fun a b => a.ID < b.ID) ∧
    (createAll NewInMemoryDatabaseContext inputs).1.map (fun t => (t.Description, t.CreatedDate)) =
      inputs.map (fun i => (some i.Description, i.CreatedDate)) ∧
    NewInMemoryDatabaseContext.ReadTodosAsync Driver.healthy [] = .ok [] := by
  obtain ⟨h1, h2, h3, h4⟩ := createAll_spec NewInMemoryDatabaseContext inputs tableOk_empty
  have hrows : (createAll NewInMemoryDatabaseContext inputs).2.rows =
      (createAll NewInMemoryDatabaseContext inputs).1.map Todo.asStored := by
    rw [h1]; simp [NewInMemoryDatabaseContext]
  refine ⟨?_, h3, ?_, h4, ?_⟩
  · rw [read_healthy_all, orderById_of_ascending _ h2.2, hrows]
    rfl
  · apply pairwise_asStored
    rw [← hrows]; exact h2.2
  · rw [read_healthy_all]; rfl

/-- C7: in a reachable store, on a healthy driver, reading a positive id returns
without error a list of at most one todo: the row with that id when there is
one, the empty list when there is none. -/
theorem read_by_id_zero_or_one (ctx : DatabaseContext) (id : Int) (h : Reachable ctx)
    (hid : 0 < id) :
    ∃ todos : List Todo,
      ctx.ReadTodosAsync Driver.healthy [id] = .ok todos ∧
      todos.length ≤ 1 ∧
      (∀ r ∈ ctx.rows, r.ID = id → todos = [r]) ∧
      (¬ ctx.hasRow id → todos = []) := by
  have hok := tableOk_of_reachable ctx h
  refine ⟨ctx.rows.filter (fun r => decide (r.ID = id)), read_by_id_tableOk ctx id hok hid,
    (filter_id_of_ascending _ id hok.2).1, (filter_id_of_ascending _ id hok.2).2,
    filter_id_of_no_row ctx id⟩

/-- Witness for C7: reading id 2 in the store left by three creates and the
delete of the first row. -/
theorem read_by_id_zero_or_one_witness :
    ∃ todos : List Todo,
      (DatabaseContext.mk [⟨2, some "b", ⟨1, 0⟩⟩, ⟨3, some "c", ⟨2, 0⟩⟩] 3).ReadTodosAsync
        Driver.healthy [2] = .ok todos ∧
      todos.length ≤ 1 ∧
      (∀ r ∈ (DatabaseContext.mk [⟨2, some "b", ⟨1, 0⟩⟩, ⟨3, some "c", ⟨2, 0⟩⟩] 3).rows,
        r.ID = 2 → todos = [r]) ∧
      (¬ (DatabaseContext.mk [⟨2, some "b", ⟨1, 0⟩⟩, ⟨3, some "c", ⟨2, 0⟩⟩] 3).hasRow 2 →
        todos = []) :=
  read_by_id_zero_or_one (DatabaseContext.mk [⟨2, some "b", ⟨1, 0⟩⟩, ⟨3, some "c", ⟨2, 0⟩⟩] 3) 2
    ⟨[.create Driver.healthy ⟨"a", ⟨0, 0⟩⟩, .create Driver.healthy ⟨"b", ⟨1, 0⟩⟩,
      .create Driver.healthy ⟨"c", ⟨2, 0⟩⟩, .delete Driver.healthy 1], by decide⟩
    (by decide)

/-- C8: for every store, every driver and every id that is zero or negative,
`ReadTodosAsync` with that id returns what `ReadTodosAsync` without an id
returns. -/
theorem read_nonpositive_id_reads_all (ctx : DatabaseContext) (drv : Driver) (id : Int)
    (h : id ≤ 0) :
    ctx.ReadTodosAsync drv [id] = ctx.ReadTodosAsync drv [] := by
  unfold DatabaseContext.ReadTodosAsync
  have : ¬ id > 0 := by omega
  simp only [this, if_false]

/-- Witness for C8: id 0 and no id on a two-row store. -/
theorem read_nonpositive_id_reads_all_witness :
    (DatabaseContext.mk [⟨1, some "a", ⟨0, 0⟩⟩, ⟨2, none, ⟨1, 0⟩⟩] 2).ReadTodosAsync
        Driver.healthy [0] =
      (DatabaseContext.mk [⟨1, some "a", ⟨0, 0⟩⟩, ⟨2, none, ⟨1, 0⟩⟩] 2).ReadTodosAsync
        Driver.healthy [] :=
  read_nonpositive_id_reads_all _ Driver.healthy 0 (by decide)

/-! ## Ids -/

theorem seq_le_apply (ctx : DatabaseContext) (op : StoreOp) : ctx.seq ≤ (op.apply ctx).seq := by
  cases op with
  | create drv input =>
    rcases create_state_cases ctx drv input with e | e
    · simp only [StoreOp.apply, e]; exact le_refl _
    · simp only [StoreOp.apply, e, execInsert]; exact le_of_lt (seq_lt_nextRowid ctx)
  | update drv id input =>
    rcases update_state_cases ctx drv id input with e | e
    · simp only [StoreOp.apply, e]; exact le_refl _
    · simp only [StoreOp.apply, e, execUpdate]; exact le_refl _
  | delete drv id =>
    rcases delete_state_cases ctx drv id with e | e
    · simp only [StoreOp.apply, e]; exact le_refl _
    · simp only [StoreOp.apply, e, execDelete]; exact le_refl _

theorem assignedId_bounds (ctx : DatabaseContext) (op : StoreOp) (i : Int)
    (h : op.assignedId ctx = some i) : ctx.seq < i ∧ i ≤ (op.apply ctx).seq := by
  cases op with
  | create drv input =>
    simp only [StoreOp.assignedId, StoreOp.apply, DatabaseContext.CreateTodoAsync] at h ⊢
    cases hd : drv.insertErr with
    | some e => simp [hd] at h
    | none =>
      simp only [hd, execInsert, Option.some.injEq] at h ⊢
      subst h
      exact ⟨seq_lt_nextRowid ctx, le_refl _⟩
  | update drv id input => simp [StoreOp.assignedId] at h
  | delete drv id => simp [StoreOp.assignedId] at h

theorem assignedIds_ascending (ctx : DatabaseContext) (ops : List StoreOp) :
    (assignedIds ctx ops).Pairwise (fun a b => a < b) ∧
    ∀ i ∈ assignedIds ctx ops, ctx.seq < i := by
  induction ops generalizing ctx with
  | nil => simp [assignedIds]
  | cons op ops ih =>
    obtain ⟨ih1, ih2⟩ := ih (op.apply ctx)
    have hseq := seq_le_apply ctx op
    simp only [assignedIds]
    cases hop : op.assignedId ctx with
    | none =>
      simp only [Option.toList, List.nil_append]
      exact ⟨ih1, fun i hi => lt_of_le_of_lt hseq (ih2 i hi)⟩
    | some j =>
      obtain ⟨b1, b2⟩ := assignedId_bounds ctx op j hop
      simp only [Option.toList, List.singleton_append, List.pairwise_cons, List.mem_cons,
        forall_eq_or_imp]
      exact ⟨⟨fun i hi => lt_of_le_of_lt b2 (ih2 i hi), ih1⟩, b1,
        fun i hi => lt_of_le_of_lt hseq (ih2 i hi)⟩

theorem update_ids (ctx : DatabaseContext) (drv : Driver) (id : Int) (input : UpdateTodoInput) :
    (ctx.UpdateTodoAsync drv id input).2.rows.map Todo.ID = ctx.rows.map Todo.ID := by
  rcases update_state_cases ctx drv id input with e | e
  · rw [e]
  · rw [e, execUpdate_ids]

/-- C9: after any sequence of create, update and delete calls on the empty
store, all row ids are positive and pairwise distinct; the ids handed out by the
creates of the sequence are positive and strictly increasing in the order of the
calls, whatever was deleted in between; and an update, on any store, leaves the
list of row ids as it was. -/
theorem ids_positive_distinct_never_reused (ops : List StoreOp) :
    (∀ r ∈ (runOps NewInMemoryDatabaseContext ops).rows, 0 < r.ID) ∧
    ((runOps NewInMemoryDatabaseContext ops).rows.map Todo.ID).Nodup ∧
    (assignedIds NewInMemoryDatabaseContext ops).Pairwise (fun a b => a < b) ∧
    (∀ i ∈ assignedIds NewInMemoryDatabaseContext ops, 0 < i) ∧
    ∀ (ctx : DatabaseContext) (drv : Driver) (id : Int) (input : UpdateTodoInput),
      (ctx.UpdateTodoAsync drv id input).2.rows.map Todo.ID = ctx.rows.map Todo.ID := by
  have hok := tableOk_runOps _ ops tableOk_empty
  have hasc := assignedIds_ascending NewInMemoryDatabaseContext ops
  refine ⟨fun r hr => (hok.1 r hr).1, ?_, hasc.1, hasc.2, update_ids⟩
  have hp := ((tableOk_iff_ids _).1 hok).2
  exact hp.imp (fun hab => ne_of_lt hab)

/-! ## Dispatcher: `update_todo` -/

theorem update_healthy_of_not_hasRow (ctx : DatabaseContext) (id : Int)
    (input : UpdateTodoInput) (h : ¬ ctx.hasRow id) :
    ctx.UpdateTodoAsync Driver.healthy id input = (.ok false, ctx) := by
  unfold DatabaseContext.UpdateTodoAsync
  rw [todoExists_healthy]
  simp [h]

theorem tool_update_healthy (t : TodosMcpTool) (id : String) (description : Option String)
    (createdDate : Option Time) :
    t.UpdateTodoAsync Driver.healthy id description createdDate =
      (match Atoi id with
       | none => (.ok "Invalid todo id.", t)
       | some n =>
         if t.db.hasRow n then
           (.ok ("Todo " ++ formatInt n ++ " updated."),
            { db :=
                { rows := t.db.rows.map (fun r =>
                    if r.ID = n then
                      { ID := r.ID,
                        Description :=
                          match description with
                          | some d => if TrimSpace d = "" then r.Description else some d
                          | none => r.Description,
                        CreatedDate :=
                          match createdDate with
                          | some c => sqliteDatetime c
                          | none => r.CreatedDate }
                    else r),
                  seq := t.db.seq } })
         else (.ok ("Todo with Id " ++ formatInt n ++ " not found."), t)) := by
  unfold TodosMcpTool.UpdateTodoAsync
  cases hp : Atoi id with
  | none => rfl
  | some n =>
    by_cases hr : t.db.hasRow n
    · simp only [hr, if_true]
      rw [update_healthy_of_hasRow _ _ _ hr]
      cases description with
      | none => rfl
      | some d =>
        by_cases hd : TrimSpace d = ""
        · simp [hd]
        · simp [hd]
    · simp only [hr, if_false]
      rw [update_healthy_of_not_hasRow _ _ _ hr]

/-- C10: on a healthy driver the dispatcher's `UpdateTodoAsync` returns no error
and one of three messages, by cases on the id text: `Invalid todo id.` with the
store untouched when `Atoi` rejects the text; otherwise, with `n` the parsed
integer, `Todo with Id n not found.` with the store unchanged when no row has id
`n`, and `Todo n updated.` when a row has id `n`, the store then being the one in
which the rows of id `n` carry the non-blank description that was given and the
given date as the driver stores it.  With the empty description the stored
descriptions stay as they were. -/
theorem update_todo_returns_one_of_three_messages (t : TodosMcpTool) (id : String)
    (description : Option String) (createdDate : Option Time) :
    t.UpdateTodoAsync Driver.healthy id description createdDate =
      (match Atoi id with
       | none => (.ok "Invalid todo id.", t)
       | some n =>
         if t.db.hasRow n then
           (.ok ("Todo " ++ formatInt n ++ " updated."),
            { db :=
                { rows := t.db.rows.map (fun r =>
                    if r.ID = n then
                      { ID := r.ID,
                        Description :=
                          match description with
                          | some d => if TrimSpace d = "" then r.Description else some d
                          | none => r.Description,
                        CreatedDate :=
                          match createdDate with
                          | some c => sqliteDatetime c
                          | none => r.CreatedDate }
                    else r),
                  seq := t.db.seq } })
         else (.ok ("Todo with Id " ++ formatInt n ++ " not found."), t)) ∧
    (t.UpdateTodoAsync Driver.healthy id (some "") createdDate).2.db.rows.map Todo.Description =
      t.db.rows.map Todo.Description := by
  refine ⟨tool_update_healthy t id description createdDate, ?_⟩
  rw [tool_update_healthy]
  cases Atoi id with
  | none => rfl
  | some n =>
    by_cases hr : t.db.hasRow n
    · simp only [hr, if_true, List.map_map]
      apply List.map_congr_left
      intro r _
      have hb : TrimSpace "" = "" := by decide
      simp only [Function.comp, hb, if_true]
      split <;> rfl
    · simp only [hr, if_false]

/-! ## Dispatcher: `delete_todo` -/

theorem tool_delete_healthy (t : TodosMcpTool) (id : String) :
    t.DeleteTodoAsync Driver.healthy id =
      (match Atoi id with
       | none => (.ok "Invalid todo id.", t)
       | some n =>
         if t.db.hasRow n then
           (.ok ("Todo " ++ formatInt n ++ " deleted."),
            { db := { rows := t.db.rows.filter (fun r => decide (r.ID ≠ n)), seq := t.db.seq } })
         else (.ok ("Todo with Id " ++ formatInt n ++ " not found."), t)) := by
  unfold TodosMcpTool.DeleteTodoAsync
  cases hp : Atoi id with
  | none => rfl
  | some n =>
    by_cases hr : t.db.hasRow n
    · simp only [hr, if_true]
      rw [delete_healthy_eq]
      simp [hr]
    · simp only [hr, if_false]
      rw [delete_missing_row _ _ hr]

/-- C11: on a healthy driver the dispatcher's `DeleteTodoAsync` returns no error
and one of three messages, by cases on the id text: `Invalid todo id.` with the
store untouched when `Atoi` rejects the text; otherwise, with `n` the parsed
integer, `Todo with Id n not found.` with the store unchanged when no row has id
`n`, and `Todo n deleted.` when a row has id `n`, the store then being the old
one without the rows of id `n`.  After the call no row has the parsed id. -/
theorem delete_todo_returns_one_of_three_messages (t : TodosMcpTool) (id : String) :
    t.DeleteTodoAsync Driver.healthy id =
      (match Atoi id with
       | none => (.ok "Invalid todo id.", t)
       | some n =>
         if t.db.hasRow n then
           (.ok ("Todo " ++ formatInt n ++ " deleted."),
            { db := { rows := t.db.rows.filter (fun r => decide (r.ID ≠ n)), seq := t.db.seq } })
         else (.ok ("Todo with Id " ++ formatInt n ++ " not found."), t)) ∧
    (match Atoi id with
     | none => True
     | some n => ¬ (t.DeleteTodoAsync Driver.healthy id).2.db.hasRow n) := by
  refine ⟨tool_delete_healthy t id, ?_⟩
  rw [tool_delete_healthy]
  cases Atoi id with
  | none => trivial
  | some n =>
    by_cases hr : t.db.hasRow n
    · simp only [hr, if_true]
      exact not_hasRow_execDelete t.db n
    · simp [hr]

/-! ## Dispatcher: `read_todos` -/

theorem read_nonpositive (ctx : DatabaseContext) (drv : Driver) (id : Int) (h : id ≤ 0) :
    ctx.ReadTodosAsync drv [id] = ctx.ReadTodosAsync drv [] := by
  unfold DatabaseContext.ReadTodosAsync
  have : ¬ id > 0 := by omega
  simp only [this, if_false]

theorem tool_read_healthy (t : TodosMcpTool) (id : Option String) :
    t.ReadTodosAsync Driver.healthy id =
      (match id with
       | none => .ok (orderById t.db.rows)
       | some s =>
         if s.data.all isSpace = true then .ok (orderById t.db.rows)
         else
           match Atoi (TrimSpace s) with
           | none => .ok []
           | some n =>
             if n ≤ 0 then .ok (orderById t.db.rows)
             else .ok (orderById (t.db.rows.filter (fun r => decide (r.ID = n))))) := by
  unfold TodosMcpTool.ReadTodosAsync
  cases id with
  | none => exact read_healthy_all t.db
  | some s =>
    by_cases hb : s.data.all isSpace = true
    · have : TrimSpace s = "" := (TrimSpace_eq_empty_iff s).2 hb
      simp only [this, ne_eq, not_true_eq_false, if_false, hb, if_true]
      exact read_healthy_all t.db
    · have hne : TrimSpace s ≠ "" := fun e => hb ((TrimSpace_eq_empty_iff s).1 e)
      simp only [hne, ne_eq, not_false_eq_true, if_true, hb, if_false]
      cases Atoi (TrimSpace s) with
      | none => rfl
      | some n =>
        by_cases hn : n ≤ 0
        · simp only [hn, if_true]
          rw [read_nonpositive _ _ _ hn]
          exact read_healthy_all t.db
        · simp only [hn, if_false]
          exact read_healthy_by_id t.db n (by omega)

theorem tool_read_unparsable (t : TodosMcpTool) (drv : Driver) (s : String)
    (hb : s.data.all isSpace = false) (hp : Atoi (TrimSpace s) = none) :
    t.ReadTodosAsync drv (some s) = .ok [] := by
  unfold TodosMcpTool.ReadTodosAsync
  have hne : TrimSpace s ≠ "" := by
    intro e
    have := (TrimSpace_eq_empty_iff s).1 e
    simp [hb] at this
  simp [hne, hp]

/-- C12: on a healthy driver the dispatcher's `ReadTodosAsync` returns, without
error: all rows in id order when the id is absent or made of white space only;
the empty list when the trimmed id is not blank and `Atoi` rejects it; all rows
when it parses to an integer `n ≤ 0`; the rows of id `n` when it parses to
`n > 0`.  In the second case the answer is the empty list on every driver, so
the store is not queried.  On a table that satisfies the table invariant, all
rows in id order are the table itself and the rows of one id are at most one. -/
theorem read_todos_dispatch_by_id_text (t : TodosMcpTool) (id : Option String) :
    t.ReadTodosAsync Driver.healthy id =
      (match id with
       | none => .ok (orderById t.db.rows)
       | some s =>
         if s.data.all isSpace = true then .ok (orderById t.db.rows)
         else
           match Atoi (TrimSpace s) with
           | none => .ok []
           | some n =>
             if n ≤ 0 then .ok (orderById t.db.rows)
             else .ok (orderById (t.db.rows.filter (fun r => decide (r.ID = n))))) ∧
    (∀ (drv : Driver) (s : String), s.data.all isSpace = false → Atoi (TrimSpace s) = none →
      t.ReadTodosAsync drv (some s) = .ok []) ∧
    (TableOk t.db →
      orderById t.db.rows = t.db.rows ∧
      ∀ n : Int,
        orderById (t.db.rows.filter (fun r => decide (r.ID = n))) =
          t.db.rows.filter (fun r => decide (r.ID = n)) ∧
        (t.db.rows.filter (fun r => decide (r.ID = n))).length ≤ 1 ∧
        (∀ r ∈ t.db.rows, r.ID = n → t.db.rows.filter (fun r => decide (r.ID = n)) = [r])) := by
  refine ⟨tool_read_healthy t id, tool_read_unparsable t, ?_⟩
  intro hok
  refine ⟨orderById_of_ascending _ hok.2, fun n => ⟨?_, ?_, ?_⟩⟩
  · exact orderById_of_ascending _ (hok.2.sublist (List.filter_sublist _))
  · exact (filter_id_of_ascending _ n hok.2).1
  · exact (filter_id_of_ascending _ n hok.2).2

/-- Witness for C12: on the store left by two creates, the id text ` 2 ` reads
row 2, the text `x` reads nothing on a driver whose queries fail, and the table
invariant makes the rows of id 2 a single row. -/
theorem read_todos_dispatch_by_id_text_witness :
    (TodosMcpTool.mk (DatabaseContext.mk [⟨1, some "a", ⟨0, 0⟩⟩, ⟨2, some "b", ⟨1, 0⟩⟩] 2)).ReadTodosAsync
        Driver.healthy (some " 2 ") = .ok [⟨2, some "b", ⟨1, 0⟩⟩] ∧
    (TodosMcpTool.mk (DatabaseContext.mk [⟨1, some "a", ⟨0, 0⟩⟩, ⟨2, some "b", ⟨1, 0⟩⟩] 2)).ReadTodosAsync
        { Driver.healthy with queryErr := some "disk I/O error" } (some "x") = .ok [] ∧
    (List.filter (fun r => decide (r.ID = 2))
        [(⟨1, some "a", ⟨0, 0⟩⟩ : Todo), ⟨2, some "b", ⟨1, 0⟩⟩]).length ≤ 1 := by
  have h := read_todos_dispatch_by_id_text
    (TodosMcpTool.mk (DatabaseContext.mk [⟨1, some "a", ⟨0, 0⟩⟩, ⟨2, some "b", ⟨1, 0⟩⟩] 2))
    (some " 2 ")
  refine ⟨?_, ?_, ?_⟩
  · rw [h.1]; decide
  · exact h.2.1 _ "x" (by decide) (by decide)
  · exact ((h.2.2 (by unfold TableOk; decide)).2 2).2.1

/-! ## Dispatcher and store filter blank descriptions alike -/

theorem buildSetParts_updateInput (description : Option String) (createdDate : Option Time) :
    buildSetParts (updateInput description createdDate) =
      buildSetParts { Description := description, CreatedDate := createdDate } := by
  cases description with
  | none => rfl
  | some d =>
    by_cases hd : TrimSpace d = ""
    · simp [buildSetParts, updateInput, hd]
    · simp [buildSetParts, updateInput, hd]

theorem update_updateInput (ctx : DatabaseContext) (drv : Driver) (id : Int)
    (description : Option String) (createdDate : Option Time) :
    ctx.UpdateTodoAsync drv id (updateInput description createdDate) =
      ctx.UpdateTodoAsync drv id { Description := description, CreatedDate := createdDate } := by
  unfold DatabaseContext.UpdateTodoAsync
  rw [buildSetParts_updateInput]

theorem tool_update_eq (t : TodosMcpTool) (drv : Driver) (id : String)
    (description : Option String) (createdDate : Option Time) :
    t.UpdateTodoAsync drv id description createdDate =
      (match Atoi id with
       | none => (.ok "Invalid todo id.", t)
       | some todoID =>
         match t.db.UpdateTodoAsync drv todoID (updateInput description createdDate) with
         | (.error err, db') => (.error ("error updating todo: " ++ err), { db := db' })
         | (.ok false, db') =>
           (.ok ("Todo with Id " ++ formatInt todoID ++ " not found."), { db := db' })
         | (.ok true, db') => (.ok ("Todo " ++ formatInt todoID ++ " updated."), { db := db' })) :=
  rfl

/-- C17: for every store, driver, id, optional description and optional date,
`UpdateTodoAsync` of the store returns the same result and leaves the same store
whether it is given the description as it came, or the description with a blank
one (empty or white space only) replaced by absent; the latter is the
`updateInput` the dispatcher builds, and the dispatcher's answer is computed
from the store's result on it. -/
theorem dispatcher_blank_filter_is_redundant (ctx : DatabaseContext) (drv : Driver) (id : Int)
    (description : Option String) (createdDate : Option Time) :
    ctx.UpdateTodoAsync drv id { Description := description, CreatedDate := createdDate } =
      ctx.UpdateTodoAsync drv id
        { Description :=
            match description with
            | some d => if d.data.all isSpace = true then none else some d
            | none => none,
          CreatedDate := createdDate } ∧
    updateInput description createdDate =
      { Description :=
          match description with
          | some d => if d.data.all isSpace = true then none else some d
          | none => none,
        CreatedDate := createdDate } ∧
    ∀ (t : TodosMcpTool) (idText : String),
      t.UpdateTodoAsync drv idText description createdDate =
        (match Atoi idText with
         | none => (.ok "Invalid todo id.", t)
         | some todoID =>
           match t.db.UpdateTodoAsync drv todoID (updateInput description createdDate) with
           | (.error err, db') => (.error ("error updating todo: " ++ err), { db := db' })
           | (.ok false, db') =>
             (.ok ("Todo with Id " ++ formatInt todoID ++ " not found."), { db := db' })
           | (.ok true, db') =>
             (.ok ("Todo " ++ formatInt todoID ++ " updated."), { db := db' })) := by
  have hin : updateInput description createdDate =
      { Description :=
          match description with
          | some d => if d.data.all isSpace = true then none else some d
          | none => none,
        CreatedDate := createdDate } := by
    cases description with
    | none => rfl
    | some d =>
      by_cases hb : d.data.all isSpace = true
      · have : TrimSpace d = "" := (TrimSpace_eq_empty_iff d).2 hb
        simp [updateInput, this, hb]
      · have : TrimSpace d ≠ "" := fun e => hb ((TrimSpace_eq_empty_iff d).1 e)
        simp [updateInput, this, hb]
  refine ⟨?_, hin, fun t idText => tool_update_eq t drv idText description createdDate⟩
  rw [← hin, update_updateInput]

/-! ## Decimal digits: `%d` followed by `Atoi` -/

theorem digitChar_toNat (k : Nat) (h : k < 10) : (Nat.digitChar k).toNat = 48 + k := by
  interval_cases k <;> rfl

theorem digitsValue_append_single (ds : List Char) (d : Char) :
    digitsValue (ds ++ [d]) = digitsValue ds * 10 + (d.toNat - 48) := by
  simp [digitsValue, List.foldl_append]

theorem toDigitsCore_spec (fuel n : Nat) (acc : List Char) (h : n < fuel) :
    ∃ ds, Nat.toDigitsCore 10 fuel n acc = ds ++ acc ∧ ds ≠ [] ∧
      (∀ c ∈ ds, 48 ≤ c.toNat ∧ c.toNat ≤ 57) ∧ digitsValue ds = n := by
  induction fuel generalizing n acc with
  | zero => omega
  | succ fuel ih =>
    have hd := digitChar_toNat (n % 10) (Nat.mod_lt _ (by decide))
    unfold Nat.toDigitsCore
    by_cases h0 : n / 10 = 0
    · simp only [h0, if_true]
      refine ⟨[Nat.digitChar (n % 10)], rfl, by simp, ?_, ?_⟩
      · intro c hc
        simp only [List.mem_singleton] at hc
        subst hc
        omega
      · simp only [digitsValue, List.foldl_cons, List.foldl_nil, hd]
        omega
    · simp only [h0, if_false]
      obtain ⟨ds, e, _, hdig, hv⟩ := ih (n / 10) (Nat.digitChar (n % 10) :: acc) (by omega)
      refine ⟨ds ++ [Nat.digitChar (n % 10)], by simp [e], by simp, ?_, ?_⟩
      · intro c hc
        rcases List.mem_append.1 hc with hc | hc
        · exact hdig c hc
        · simp only [List.mem_singleton] at hc
          subst hc
          omega
      · rw [digitsValue_append_single, hv, hd]
        omega

theorem formatInt_digits (m : Nat) :
    (formatInt (m : Int)).data ≠ [] ∧
    (∀ c ∈ (formatInt (m : Int)).data, 48 ≤ c.toNat ∧ c.toNat ≤ 57) ∧
    digitsValue (formatInt (m : Int)).data = m := by
  obtain ⟨ds, e, hne, hdig, hv⟩ := toDigitsCore_spec (m + 1) m [] (by omega)
  have hdata : (formatInt (m : Int)).data = ds := by
    have : (formatInt (m : Int)).data = Nat.toDigitsCore 10 (m + 1) m [] := rfl
    rw [this, e, List.append_nil]
  rw [hdata]
  exact ⟨hne, hdig, hv⟩

theorem digit_not_space (c : Char) (h1 : 48 ≤ c.toNat) (h2 : c.toNat ≤ 57) : isSpace c = false := by
  have hc : c = Char.ofNat c.toNat := (Char.ofNat_toNat c).symm
  generalize c.toNat = k at hc h1 h2
  subst hc
  interval_cases k <;> decide

theorem space_not_digit (c : Char) (h : isSpace c = true) : ¬ (48 ≤ c.toNat ∧ c.toNat ≤ 57) := by
  intro hd
  rw [digit_not_space c hd.1 hd.2] at h
  exact Bool.false_ne_true h

theorem parseDigits_of_digits (ds : List Char) (hne : ds ≠ [])
    (hdig : ∀ c ∈ ds, 48 ≤ c.toNat ∧ c.toNat ≤ 57) : parseDigits ds = some (digitsValue ds) := by
  unfold parseDigits
  have : ds.all (fun ch => decide (48 ≤ ch.toNat ∧ ch.toNat ≤ 57)) = true := by
    rw [List.all_eq_true]
    intro c hc
    exact decide_eq_true (hdig c hc)
  rw [if_neg hne, if_pos this]

theorem parseDigits_of_not_digit (ds : List Char) (w : Char) (hw : w ∈ ds)
    (hnd : ¬ (48 ≤ w.toNat ∧ w.toNat ≤ 57)) : parseDigits ds = none := by
  unfold parseDigits
  have : ¬ ds.all (fun ch => decide (48 ≤ ch.toNat ∧ ch.toNat ≤ 57)) = true := by
    rw [List.all_eq_true]
    intro hall
    exact hnd (of_decide_eq_true (hall w hw))
  by_cases hne : ds = []
  · rw [if_pos hne]
  · rw [if_neg hne, if_neg this]

theorem Atoi_of_digits (s : String) (hne : s.data ≠ [])
    (hdig : ∀ c ∈ s.data, 48 ≤ c.toNat ∧ c.toNat ≤ 57)
    (hmax : (digitsValue s.data : Int) ≤ maxInt) : Atoi s = some (digitsValue s.data : Int) := by
  unfold Atoi
  have hp := parseDigits_of_digits s.data hne hdig
  cases hs : s.data with
  | nil => exact absurd hs hne
  | cons c cs =>
    rw [hs] at hp hdig hmax
    have hc := hdig c (List.mem_cons_self _ _)
    have h1 : c ≠ '-' := by
      intro e; subst e
      have : ('-' : Char).toNat = 45 := rfl
      omega
    have h2 : c ≠ '+' := by
      intro e; subst e
      have : ('+' : Char).toNat = 43 := rfl
      omega
    simp only [h1, h2, if_false, hp, hmax, if_true]

theorem Atoi_of_not_digit (s : String) (c w : Char) (cs : List Char) (hs : s.data = c :: cs)
    (h1 : c ≠ '-') (h2 : c ≠ '+') (hw : w ∈ s.data)
    (hnd : ¬ (48 ≤ w.toNat ∧ w.toNat ≤ 57)) : Atoi s = none := by
  unfold Atoi
  rw [hs] at hw
  have hp := parseDigits_of_not_digit (c :: cs) w hw hnd
  simp only [hs, h1, h2, if_false, hp]

/-! ## White space around an id text -/

theorem dropWhile_all_append (p : Char → Bool) (pre rest : List Char)
    (h : pre.all p = true) : (pre ++ rest).dropWhile p = rest.dropWhile p := by
  induction pre with
  | nil => rfl
  | cons a l ih =>
    simp only [List.all_cons, Bool.and_eq_true] at h
    simp [List.dropWhile_cons, h.1, ih h.2]

theorem dropWhile_of_head (p : Char → Bool) (a : Char) (l : List Char) (h : p a = false) :
    (a :: l).dropWhile p = a :: l := by
  simp [List.dropWhile_cons, h]

theorem TrimSpace_padded (pre ds post : List Char) (hne : ds ≠ [])
    (hds : ∀ c ∈ ds, isSpace c = false)
    (hpre : pre.all isSpace = true) (hpost : post.all isSpace = true) :
    TrimSpace (String.mk (pre ++ ds ++ post)) = String.mk ds := by
  unfold TrimSpace
  congr 1
  have e1 : (pre ++ ds ++ post).dropWhile isSpace = ds ++ post := by
    rw [List.append_assoc, dropWhile_all_append _ _ _ hpre]
    cases ds with
    | nil => exact absurd rfl hne
    | cons a l =>
      exact dropWhile_of_head _ a _ (hds a (List.mem_cons_self _ _))
  have e2 : (ds ++ post).reverse.dropWhile isSpace = ds.reverse := by
    rw [List.reverse_append, dropWhile_all_append _ _ _ (by simpa using hpost)]
    cases hr : ds.reverse with
    | nil => exact absurd (List.reverse_eq_nil_iff.1 hr) hne
    | cons a l =>
      apply dropWhile_of_head
      apply hds
      have : a ∈ ds.reverse := by rw [hr]; exact List.mem_cons_self _ _
      exact List.mem_reverse.1 this
  show (((pre ++ ds ++ post).dropWhile isSpace).reverse.dropWhile isSpace).reverse = ds
  rw [e1, e2, List.reverse_reverse]

theorem Atoi_padded (pre ds post : List Char) (hne : ds ≠ [])
    (hdig : ∀ c ∈ ds, 48 ≤ c.toNat ∧ c.toNat ≤ 57)
    (hpre : pre.all isSpace = true) (hpost : post.all isSpace = true) (hpad : pre ++ post ≠ []) :
    Atoi (String.mk (pre ++ ds ++ post)) = none := by
  cases pre with
  | cons a l =>
    have ha : isSpace a = true := by
      simp only [List.all_cons, Bool.and_eq_true] at hpre
      exact hpre.1
    apply Atoi_of_not_digit _ a a (l ++ ds ++ post) (by simp)
    · intro e; subst e; exact absurd ha (by decide)
    · intro e; subst e; exact absurd ha (by decide)
    · simp
    · exact space_not_digit a ha
  | nil =>
    cases post with
    | nil => exact absurd rfl hpad
    | cons b l =>
      have hb : isSpace b = true := by
        simp only [List.all_cons, Bool.and_eq_true] at hpost
        exact hpost.1
      cases ds with
      | nil => exact absurd rfl hne
      | cons d ds =>
        have hd := hdig d (List.mem_cons_self _ _)
        apply Atoi_of_not_digit _ d b (ds ++ b :: l) (by simp)
        · intro e; subst e
          have : ('-' : Char).toNat = 45 := rfl
          omega
        · intro e; subst e
          have : ('+' : Char).toNat = 43 := rfl
          omega
        · simp
        · exact space_not_digit b hb

theorem tool_update_invalid (t : TodosMcpTool) (drv : Driver) (id : String)
    (description : Option String) (createdDate : Option Time) (h : Atoi id = none) :
    t.UpdateTodoAsync drv id description createdDate = (.ok "Invalid todo id.", t) := by
  rw [tool_update_eq, h]

theorem tool_delete_invalid (t : TodosMcpTool) (drv : Driver) (id : String)
    (h : Atoi id = none) : t.DeleteTodoAsync drv id = (.ok "Invalid todo id.", t) := by
  unfold TodosMcpTool.DeleteTodoAsync
  rw [h]

/-- C18: let a table satisfy the table invariant and hold a row `r` whose id
fits a Go `int`, and let the id text be the decimal digits of that id (as `%d`
prints them) with white space before or after, at least one character of it.
Then, on a healthy driver, the dispatcher's `ReadTodosAsync` returns exactly the
row `r`, while `UpdateTodoAsync` and `DeleteTodoAsync` return
`Invalid todo id.` and leave the store unchanged, on every driver. -/
theorem padded_id_read_trims_update_delete_reject (t : TodosMcpTool) (drv : Driver) (r : Todo)
    (pre post : List Char) (description : Option String) (createdDate : Option Time)
    (hok : TableOk t.db) (hr : r ∈ t.db.rows) (hmax : r.ID ≤ maxInt)
    (hpre : pre.all isSpace = true) (hpost : post.all isSpace = true)
    (hpad : pre ++ post ≠ []) :
    t.ReadTodosAsync Driver.healthy (some (String.mk (pre ++ (formatInt r.ID).data ++ post))) =
      .ok [r] ∧
    t.UpdateTodoAsync drv (String.mk (pre ++ (formatInt r.ID).data ++ post))
        description createdDate = (.ok "Invalid todo id.", t) ∧
    t.DeleteTodoAsync drv (String.mk (pre ++ (formatInt r.ID).data ++ post)) =
      (.ok "Invalid todo id.", t) := by
  have hpos : 0 < r.ID := (hok.1 r hr).1
  obtain ⟨m, hm⟩ := Int.eq_ofNat_of_zero_le (le_of_lt hpos)
  obtain ⟨hne, hdig, hv⟩ := formatInt_digits m
  rw [hm] at hmax ⊢
  have hnone := Atoi_padded pre _ post hne hdig hpre hpost hpad
  refine ⟨?_, tool_update_invalid t drv _ _ _ hnone, tool_delete_invalid t drv _ hnone⟩
  have htrim := TrimSpace_padded pre _ post hne
    (fun c hc => digit_not_space c (hdig c hc).1 (hdig c hc).2) hpre hpost
  have hnb : String.mk (formatInt (m : Int)).data ≠ "" := by
    intro e
    exact hne (congrArg String.data e)
  have hparse : Atoi (String.mk (formatInt (m : Int)).data) = some (m : Int) := by
    have := Atoi_of_digits (String.mk (formatInt (m : Int)).data) hne hdig (by rw [hv]; exact hmax)
    rw [this, hv]
  unfold TodosMcpTool.ReadTodosAsync
  simp only [htrim, hnb, ne_eq, not_false_eq_true, if_true, hparse]
  rw [← hm, read_by_id_tableOk _ _ hok hpos]
  congr 1
  exact (filter_id_of_ascending _ _ hok.2).2 r hr rfl

/-- Witness for C18: row 2 of a two-row table and the id text ` 2`. -/
theorem padded_id_read_trims_update_delete_reject_witness :
    (TodosMcpTool.mk (DatabaseContext.mk [⟨1, some "a", ⟨0, 0⟩⟩, ⟨2, some "b", ⟨1, 0⟩⟩] 2)).ReadTodosAsync
        Driver.healthy (some " 2") = .ok [⟨2, some "b", ⟨1, 0⟩⟩] ∧
    (TodosMcpTool.mk (DatabaseContext.mk [⟨1, some "a", ⟨0, 0⟩⟩, ⟨2, some "b", ⟨1, 0⟩⟩] 2)).UpdateTodoAsync
        Driver.healthy " 2" (some "c") none =
      (.ok "Invalid todo id.",
        TodosMcpTool.mk (DatabaseContext.mk [⟨1, some "a", ⟨0, 0⟩⟩, ⟨2, some "b", ⟨1, 0⟩⟩] 2)) ∧
    (TodosMcpTool.mk (DatabaseContext.mk [⟨1, some "a", ⟨0, 0⟩⟩, ⟨2, some "b", ⟨1, 0⟩⟩] 2)).DeleteTodoAsync
        Driver.healthy " 2" =
      (.ok "Invalid todo id.",
        TodosMcpTool.mk (DatabaseContext.mk [⟨1, some "a", ⟨0, 0⟩⟩, ⟨2, some "b", ⟨1, 0⟩⟩] 2)) :=
  padded_id_read_trims_update_delete_reject
    (TodosMcpTool.mk (DatabaseContext.mk [⟨1, some "a", ⟨0, 0⟩⟩, ⟨2, some "b", ⟨1, 0⟩⟩] 2))
    Driver.healthy ⟨2, some "b", ⟨1, 0⟩⟩ [' '] [] (some "c") none
    (by unfold TableOk; decide) (by decide) (by decide) (by decide) (by decide) (by decide)

/-! ## Protocol server: routing -/

theorem stringArg_eq_some (args : List (String × JSON)) (key v : String)
    (h : List.lookup key args = some (.string v)) : stringArg args key = some v := by
  simp [stringArg, h]

theorem stringArg_eq_none (args : List (String × JSON)) (key : String)
    (h : ∀ v, List.lookup key args ≠ some (.string v)) : stringArg args key = none := by
  unfold stringArg
  split
  · next v hv => exact absurd hv (h v)
  · rfl

theorem HandleMCP_post (s : MCPServer) (lib : Stdlib) (drv : Driver) (body : MCPRequest) :
    s.HandleMCP lib drv { Method := "POST", Body := body, decodeFails := false } =
      if body.Method = "tools/list" then s.handleToolsList body
      else if body.Method = "tools/call" then s.handleToolsCall lib drv body
      else (sendError body.ID (-32601) "Method not found" none, s) := by
  have h1 : ¬ ("POST" = "OPTIONS") := by decide
  simp [MCPServer.HandleMCP, h1]

theorem HandleMCP_call (s : MCPServer) (lib : Stdlib) (drv : Driver) (body : MCPRequest)
    (hm : body.Method = "tools/call") :
    s.HandleMCP lib drv { Method := "POST", Body := body, decodeFails := false } =
      s.handleToolsCall lib drv body := by
  have h1 : ¬ ("tools/call" = "tools/list") := by decide
  rw [HandleMCP_post, hm]
  simp [h1]

theorem handleToolsCall_named (s : MCPServer) (lib : Stdlib) (drv : Driver) (body : MCPRequest)
    (paramsMap : List (String × JSON)) (toolName : String)
    (hp : body.Params = .object paramsMap)
    (hn : List.lookup "name" paramsMap = some (.string toolName)) :
    s.handleToolsCall lib drv body =
      if toolName = "create_todo" then s.handleCreateTodo lib drv body (toolArguments paramsMap)
      else if toolName = "read_todos" then s.handleReadTodos lib drv body (toolArguments paramsMap)
      else if toolName = "update_todo" then
        s.handleUpdateTodo lib drv body (toolArguments paramsMap)
      else if toolName = "delete_todo" then s.handleDeleteTodo drv body (toolArguments paramsMap)
      else (sendError body.ID (-32601) "Unknown tool" none, s) := by
  unfold MCPServer.handleToolsCall
  rw [hp]
  simp only [stringArg_eq_some _ _ _ hn]

/-- C13: for a decoded `POST` request, the server answers with status 400 and a
JSON-RPC error of code -32601 when the method is neither `tools/list` nor
`tools/call`, and when the method is `tools/call`, `params` is an object and
its `name` is a string other than the four tool names, whatever the arguments.
The answer is the same on every driver and the server state is unchanged: the
store is not invoked. -/
theorem unknown_method_or_tool_is_not_found (s : MCPServer) (lib : Stdlib) (body : MCPRequest)
    (h : (body.Method ≠ "tools/list" ∧ body.Method ≠ "tools/call") ∨
         (body.Method = "tools/call" ∧
           ∃ (paramsMap : List (String × JSON)) (toolName : String),
             body.Params = .object paramsMap ∧
             List.lookup "name" paramsMap = some (.string toolName) ∧
             toolName ≠ "create_todo" ∧ toolName ≠ "read_todos" ∧
             toolName ≠ "update_todo" ∧ toolName ≠ "delete_todo")) :
    ∃ message : String, ∀ drv : Driver,
      s.HandleMCP lib drv { Method := "POST", Body := body, decodeFails := false } =
        ({ status := 400,
           body := some { JSONRPC := "2.0", ID := body.ID, Result := none,
                          Error := some { Code := -32601, Message := message, Data := none } } },
         s) := by
  rcases h with ⟨h1, h2⟩ | ⟨hm, paramsMap, toolName, hp, hn, n1, n2, n3, n4⟩
  · refine ⟨"Method not found", fun drv => ?_⟩
    rw [HandleMCP_post]
    simp only [h1, h2, if_false]
    rfl
  · refine ⟨"Unknown tool", fun drv => ?_⟩
    rw [HandleMCP_call _ _ _ _ hm, handleToolsCall_named _ _ _ _ _ _ hp hn]
    simp only [n1, n2, n3, n4, if_false]
    rfl

/-- Witness for C13: a `tools/call` request for the tool `bogus_tool`. -/
theorem unknown_method_or_tool_is_not_found_witness :
    ∃ message : String, ∀ drv : Driver,
      (MCPServer.mk (TodosMcpTool.mk NewInMemoryDatabaseContext)).HandleMCP
          { parseRFC3339 := fun _ => none, marshalTodos := fun _ => none } drv
          { Method := "POST",
            Body := { JSONRPC := "2.0", ID := .number 7, Method := "tools/call",
                      Params := .object [("name", .string "bogus_tool")] },
            decodeFails := false } =
        ({ status := 400,
           body := some { JSONRPC := "2.0", ID := .number 7, Result := none,
                          Error := some { Code := -32601, Message := message, Data := none } } },
         MCPServer.mk (TodosMcpTool.mk NewInMemoryDatabaseContext)) :=
  unknown_method_or_tool_is_not_found (MCPServer.mk (TodosMcpTool.mk NewInMemoryDatabaseContext))
    { parseRFC3339 := fun _ => none, marshalTodos := fun _ => none }
    { JSONRPC := "2.0", ID := .number 7, Method := "tools/call",
      Params := .object [("name", .string "bogus_tool")] }
    (Or.inr ⟨rfl, [("name", .string "bogus_tool")], "bogus_tool", rfl, rfl,
      by decide, by decide, by decide, by decide⟩)

/-! ## Protocol server: argument validation -/

theorem handleCreateTodo_invalid (s : MCPServer) (lib : Stdlib) (body : MCPRequest)
    (args : List (String × JSON))
    (h : (∀ v, List.lookup "description" args ≠ some (.string v)) ∨
         (∀ v, List.lookup "createdDate" args ≠ some (.string v)) ∨
         (∃ v, List.lookup "createdDate" args = some (.string v) ∧ lib.parseRFC3339 v = none)) :
    ∃ message : String, ∀ drv : Driver,
      s.handleCreateTodo lib drv body args = (sendError body.ID (-32602) message none, s) := by
  unfold MCPServer.handleCreateTodo
  cases hd : stringArg args "description" with
  | none => exact ⟨"Missing or invalid description", fun _ => rfl⟩
  | some d =>
    cases hc : stringArg args "createdDate" with
    | none => exact ⟨"Missing or invalid createdDate", fun _ => rfl⟩
    | some c =>
      rcases h with h | h | ⟨v, hv, hbad⟩
      · rw [stringArg_eq_none _ _ h] at hd
        exact absurd hd (by simp)
      · rw [stringArg_eq_none _ _ h] at hc
        exact absurd hc (by simp)
      · rw [stringArg_eq_some _ _ _ hv] at hc
        cases hc
        refine ⟨"Invalid date format", fun _ => ?_⟩
        simp only [hbad]

theorem handleUpdateTodo_invalid (s : MCPServer) (lib : Stdlib) (drv : Driver)
    (body : MCPRequest) (args : List (String × JSON))
    (h : ∀ v, List.lookup "id" args ≠ some (.string v)) :
    s.handleUpdateTodo lib drv body args =
      (sendError body.ID (-32602) "Missing or invalid id" none, s) := by
  unfold MCPServer.handleUpdateTodo
  rw [stringArg_eq_none _ _ h]

theorem handleDeleteTodo_invalid (s : MCPServer) (drv : Driver)
    (body : MCPRequest) (args : List (String × JSON))
    (h : ∀ v, List.lookup "id" args ≠ some (.string v)) :
    s.handleDeleteTodo drv body args =
      (sendError body.ID (-32602) "Missing or invalid id" none, s) := by
  unfold MCPServer.handleDeleteTodo
  rw [stringArg_eq_none _ _ h]

/-- C14: for a decoded `POST` request with method `tools/call`, the server
answers with status 400 and a JSON-RPC error of code -32602 whenever `params`
is not an object; or its `name` is missing or not a string; or the tool is
`create_todo` and the arguments lack a string `description`, lack a string
`createdDate`, or carry a `createdDate` that `time.Parse` rejects; or the tool
is `update_todo` or `delete_todo` and the arguments lack a string `id`.  The
answer is the same on every driver and the server state is unchanged: the store
is not invoked. -/
theorem invalid_params_are_rejected (s : MCPServer) (lib : Stdlib) (body : MCPRequest)
    (hm : body.Method = "tools/call")
    (h : (∀ paramsMap, body.Params ≠ .object paramsMap) ∨
         (∃ paramsMap, body.Params = .object paramsMap ∧
            ∀ v, List.lookup "name" paramsMap ≠ some (.string v)) ∨
         (∃ paramsMap, body.Params = .object paramsMap ∧
            List.lookup "name" paramsMap = some (.string "create_todo") ∧
            ((∀ v, List.lookup "description" (toolArguments paramsMap) ≠ some (.string v)) ∨
             (∀ v, List.lookup "createdDate" (toolArguments paramsMap) ≠ some (.string v)) ∨
             (∃ v, List.lookup "createdDate" (toolArguments paramsMap) = some (.string v) ∧
                lib.parseRFC3339 v = none))) ∨
         (∃ paramsMap, body.Params = .object paramsMap ∧
            (List.lookup "name" paramsMap = some (.string "update_todo") ∨
             List.lookup "name" paramsMap = some (.string "delete_todo")) ∧
            ∀ v, List.lookup "id" (toolArguments paramsMap) ≠ some (.string v))) :
    ∃ message : String, ∀ drv : Driver,
      s.HandleMCP lib drv { Method := "POST", Body := body, decodeFails := false } =
        ({ status := 400,
           body := some { JSONRPC := "2.0", ID := body.ID, Result := none,
                          Error := some { Code := -32602, Message := message, Data := none } } },
         s) := by
  rcases h with h | ⟨p, hp, hn⟩ | ⟨p, hp, hn, hc⟩ | ⟨p, hp, hn, hid⟩
  · refine ⟨"Invalid params", fun drv => ?_⟩
    rw [HandleMCP_call _ _ _ _ hm]
    unfold MCPServer.handleToolsCall
    split
    · next q hq => exact absurd hq (h q)
    · rfl
  · refine ⟨"Missing tool name", fun drv => ?_⟩
    rw [HandleMCP_call _ _ _ _ hm]
    unfold MCPServer.handleToolsCall
    rw [hp]
    simp only [stringArg_eq_none _ _ hn]
    rfl
  · obtain ⟨message, hmsg⟩ := handleCreateTodo_invalid s lib body (toolArguments p) hc
    refine ⟨message, fun drv => ?_⟩
    rw [HandleMCP_call _ _ _ _ hm, handleToolsCall_named _ _ _ _ _ _ hp hn]
    simp only [if_true]
    rw [hmsg drv]
    rfl
  · refine ⟨"Missing or invalid id", fun drv => ?_⟩
    rw [HandleMCP_call _ _ _ _ hm]
    rcases hn with hn | hn
    · rw [handleToolsCall_named _ _ _ _ _ _ hp hn]
      have h1 : ¬ ("update_todo" = "create_todo") := by decide
      have h2 : ¬ ("update_todo" = "read_todos") := by decide
      simp only [h1, h2, if_false, if_true]
      rw [handleUpdateTodo_invalid _ _ _ _ _ hid]
      rfl
    · rw [handleToolsCall_named _ _ _ _ _ _ hp hn]
      have h1 : ¬ ("delete_todo" = "create_todo") := by decide
      have h2 : ¬ ("delete_todo" = "read_todos") := by decide
      have h3 : ¬ ("delete_todo" = "update_todo") := by decide
      simp only [h1, h2, h3, if_false, if_true]
      rw [handleDeleteTodo_invalid _ _ _ _ hid]
      rfl

/-- Witness for C14: a `create_todo` call whose `createdDate` is the string
`yesterday`, which the parser rejects. -/
theorem invalid_params_are_rejected_witness :
    ∃ message : String, ∀ drv : Driver,
      (MCPServer.mk (TodosMcpTool.mk NewInMemoryDatabaseContext)).HandleMCP
          { parseRFC3339 := fun v => if v = "1970-01-01T00:00:00Z" then some ⟨0, 0⟩ else none,
            marshalTodos := fun _ => none } drv
          { Method := "POST",
            Body := { JSONRPC := "2.0", ID := .number 1, Method := "tools/call",
                      Params := .object
                        [("name", .string "create_todo"),
                         ("arguments", .object
                            [("description", .string "Buy milk"),
                             ("createdDate", .string "yesterday")])] },
            decodeFails := false } =
        ({ status := 400,
           body := some { JSONRPC := "2.0", ID := .number 1, Result := none,
                          Error := some { Code := -32602, Message := message, Data := none } } },
         MCPServer.mk (TodosMcpTool.mk NewInMemoryDatabaseContext)) :=
  invalid_params_are_rejected (MCPServer.mk (TodosMcpTool.mk NewInMemoryDatabaseContext))
    { parseRFC3339 := fun v => if v = "1970-01-01T00:00:00Z" then some ⟨0, 0⟩ else none,
      marshalTodos := fun _ => none }
    { JSONRPC := "2.0", ID := .number 1, Method := "tools/call",
      Params := .object
        [("name", .string "create_todo"),
         ("arguments", .object
            [("description", .string "Buy milk"), ("createdDate", .string "yesterday")])] }
    rfl
    (Or.inr (Or.inr (Or.inl ⟨_, rfl, rfl, Or.inr (Or.inr ⟨"yesterday", rfl, by decide⟩)⟩)))

/-! ## Protocol server: a date that does not parse -/

theorem lookup_cons_eq (k : String) (v0 : JSON) (l : List (String × JSON)) :
    List.lookup k ((k, v0) :: l) = some v0 := by
  simp [List.lookup]

theorem lookup_cons_ne (k k0 : String) (v0 : JSON) (l : List (String × JSON)) (h : k ≠ k0) :
    List.lookup k ((k0, v0) :: l) = List.lookup k l := by
  have hb : (k == k0) = false := by simpa using h
  simp [List.lookup, hb]

theorem dropKey_cons_eq (key : String) (v0 : JSON) (l : List (String × JSON)) :
    dropKey key ((key, v0) :: l) = dropKey key l := by
  simp [dropKey, List.filter_cons]

theorem dropKey_cons_ne (key k0 : String) (v0 : JSON) (l : List (String × JSON))
    (h : k0 ≠ key) : dropKey key ((k0, v0) :: l) = (k0, v0) :: dropKey key l := by
  simp [dropKey, List.filter_cons, h]

theorem lookup_dropKey_ne (key k : String) (args : List (String × JSON)) (h : k ≠ key) :
    List.lookup k (dropKey key args) = List.lookup k args := by
  induction args with
  | nil => rfl
  | cons kv l ih =>
    obtain ⟨k0, v0⟩ := kv
    by_cases hk : k0 = key
    · subst hk
      rw [dropKey_cons_eq, ih, lookup_cons_ne _ _ _ _ h]
    · rw [dropKey_cons_ne _ _ _ _ hk]
      by_cases hkk : k = k0
      · subst hkk
        rw [lookup_cons_eq, lookup_cons_eq]
      · rw [lookup_cons_ne _ _ _ _ hkk, lookup_cons_ne _ _ _ _ hkk, ih]

theorem lookup_dropKey_self (key : String) (args : List (String × JSON)) :
    List.lookup key (dropKey key args) = none := by
  induction args with
  | nil => rfl
  | cons kv l ih =>
    obtain ⟨k0, v0⟩ := kv
    by_cases hk : k0 = key
    · subst hk
      rw [dropKey_cons_eq, ih]
    · rw [dropKey_cons_ne _ _ _ _ hk, lookup_cons_ne _ _ _ _ (fun e => hk e.symm), ih]

theorem stringArg_dropKey_ne (key k : String) (args : List (String × JSON)) (h : k ≠ key) :
    stringArg (dropKey key args) k = stringArg args k := by
  unfold stringArg
  rw [lookup_dropKey_ne key k args h]

theorem dateArg_dropKey (lib : Stdlib) (args : List (String × JSON)) :
    dateArg lib (dropKey "createdDate" args) = none := by
  unfold dateArg stringArg
  rw [lookup_dropKey_self]

theorem handleUpdateTodo_of_date (s : MCPServer) (lib : Stdlib) (drv : Driver)
    (body : MCPRequest) (args : List (String × JSON)) :
    s.handleUpdateTodo lib drv body args =
      match stringArg args "id" with
      | none => (sendError body.ID (-32602) "Missing or invalid id" none, s)
      | some id =>
        match s.todosTool.UpdateTodoAsync drv id (stringArg args "description")
            (dateArg lib args) with
        | (.error _, tool) =>
          (sendError body.ID (-32603) "Internal error" none, { todosTool := tool })
        | (.ok result, tool) => (sendResult body.ID (textContent result), { todosTool := tool }) :=
  rfl

theorem tool_update_healthy_ok (t : TodosMcpTool) (id : String) (description : Option String)
    (createdDate : Option Time) :
    ∃ text tool, t.UpdateTodoAsync Driver.healthy id description createdDate = (.ok text, tool) := by
  rw [tool_update_healthy]
  cases Atoi id with
  | none => exact ⟨_, _, rfl⟩
  | some n =>
    by_cases hr : t.db.hasRow n
    · simp only [hr, if_true]; exact ⟨_, _, rfl⟩
    · simp only [hr, if_false]; exact ⟨_, _, rfl⟩

theorem HandleMCP_update (s : MCPServer) (lib : Stdlib) (drv : Driver) (body : MCPRequest)
    (paramsMap : List (String × JSON)) (hm : body.Method = "tools/call")
    (hp : body.Params = .object paramsMap)
    (hn : List.lookup "name" paramsMap = some (.string "update_todo")) :
    s.HandleMCP lib drv { Method := "POST", Body := body, decodeFails := false } =
      s.handleUpdateTodo lib drv body (toolArguments paramsMap) := by
  have h1 : ¬ ("update_todo" = "create_todo") := by decide
  have h2 : ¬ ("update_todo" = "read_todos") := by decide
  rw [HandleMCP_call _ _ _ _ hm, handleToolsCall_named _ _ _ _ _ _ hp hn]
  simp only [h1, h2, if_false, if_true]

/-- C15: take a decoded `POST` request with method `tools/call` for the tool
`update_todo` whose arguments hold a string `id` and a string `createdDate`
that `time.Parse` rejects.  On every driver the server gives the same response
and leaves the same state as for the request that differs only in having no
`createdDate` argument; and on a healthy driver that response is a result, not
an error. -/
theorem unparsable_date_is_dropped (s : MCPServer) (lib : Stdlib) (drv : Driver)
    (body : MCPRequest) (paramsMap : List (String × JSON)) (id v : String)
    (hm : body.Method = "tools/call") (hp : body.Params = .object paramsMap)
    (hn : List.lookup "name" paramsMap = some (.string "update_todo"))
    (hid : List.lookup "id" (toolArguments paramsMap) = some (.string id))
    (hv : List.lookup "createdDate" (toolArguments paramsMap) = some (.string v))
    (hbad : lib.parseRFC3339 v = none) :
    s.HandleMCP lib drv { Method := "POST", Body := body, decodeFails := false } =
      s.HandleMCP lib drv
        { Method := "POST",
          Body := { JSONRPC := body.JSONRPC, ID := body.ID, Method := body.Method,
                    Params := .object
                      [("name", .string "update_todo"),
                       ("arguments", .object (dropKey "createdDate" (toolArguments paramsMap)))] },
          decodeFails := false } ∧
    ∃ text : String,
      (s.HandleMCP lib Driver.healthy { Method := "POST", Body := body, decodeFails := false }).1 =
        { status := 200,
          body := some { JSONRPC := "2.0", ID := body.ID, Result := some (textContent text),
                         Error := none } } := by
  have hdate : dateArg lib (toolArguments paramsMap) = none := by
    unfold dateArg
    rw [stringArg_eq_some _ _ _ hv]
    exact hbad
  constructor
  · rw [HandleMCP_update s lib drv body paramsMap hm hp hn,
      HandleMCP_update s lib drv
        { JSONRPC := body.JSONRPC, ID := body.ID, Method := body.Method,
          Params := .object
            [("name", .string "update_todo"),
             ("arguments", .object (dropKey "createdDate" (toolArguments paramsMap)))] }
        [("name", .string "update_todo"),
         ("arguments", .object (dropKey "createdDate" (toolArguments paramsMap)))]
        hm rfl rfl]
    have hargs : toolArguments [("name", JSON.string "update_todo"),
        ("arguments", JSON.object (dropKey "createdDate" (toolArguments paramsMap)))] =
        dropKey "createdDate" (toolArguments paramsMap) := rfl
    rw [hargs, handleUpdateTodo_of_date, handleUpdateTodo_of_date, dateArg_dropKey, hdate,
      stringArg_dropKey_ne _ _ _ (by decide), stringArg_dropKey_ne _ _ _ (by decide)]
  · rw [HandleMCP_update s lib Driver.healthy body paramsMap hm hp hn,
      handleUpdateTodo_of_date, stringArg_eq_some _ _ _ hid]
    obtain ⟨text, tool, e⟩ := tool_update_healthy_ok s.todosTool id
      (stringArg (toolArguments paramsMap) "description") (dateArg lib (toolArguments paramsMap))
    refine ⟨text, ?_⟩
    simp only [e]
    rfl

/-- Witness for C15: an update of row 1 with a new description and the date
text `tomorrow`. -/
theorem unparsable_date_is_dropped_witness :
    (MCPServer.mk (TodosMcpTool.mk (DatabaseContext.mk [⟨1, some "a", ⟨0, 0⟩⟩] 1))).HandleMCP
        { parseRFC3339 := fun v => if v = "1970-01-01T00:00:00Z" then some ⟨0, 0⟩ else none,
          marshalTodos := fun _ => none } Driver.healthy
        { Method := "POST",
          Body := { JSONRPC := "2.0", ID := .number 1, Method := "tools/call",
                    Params := .object
                      [("name", .string "update_todo"),
                       ("arguments", .object
                          [("id", .string "1"), ("description", .string "b"),
                           ("createdDate", .string "tomorrow")])] },
          decodeFails := false } =
      (MCPServer.mk (TodosMcpTool.mk (DatabaseContext.mk [⟨1, some "a", ⟨0, 0⟩⟩] 1))).HandleMCP
        { parseRFC3339 := fun v => if v = "1970-01-01T00:00:00Z" then some ⟨0, 0⟩ else none,
          marshalTodos := fun _ => none } Driver.healthy
        { Method := "POST",
          Body := { JSONRPC := "2.0", ID := .number 1, Method := "tools/call",
                    Params := .object
                      [("name", .string "update_todo"),
                       ("arguments", .object
                          [("id", .string "1"), ("description", .string "b")])] },
          decodeFails := false } :=
  (unparsable_date_is_dropped
    (MCPServer.mk (TodosMcpTool.mk (DatabaseContext.mk [⟨1, some "a", ⟨0, 0⟩⟩] 1)))
    { parseRFC3339 := fun v => if v = "1970-01-01T00:00:00Z" then some ⟨0, 0⟩ else none,
      marshalTodos := fun _ => none } Driver.healthy
    { JSONRPC := "2.0", ID := .number 1, Method := "tools/call",
      Params := .object
        [("name", .string "update_todo"),
         ("arguments", .object
            [("id", .string "1"), ("description", .string "b"),
             ("createdDate", .string "tomorrow")])] }
    [("name", .string "update_todo"),
     ("arguments", .object
        [("id", .string "1"), ("description", .string "b"),
         ("createdDate", .string "tomorrow")])]
    "1" "tomorrow" rfl rfl rfl rfl rfl (by decide)).1

/-! ## Protocol server: store failures -/

theorem lookup_of_stringArg (args : List (String × JSON)) (key v : String)
    (h : stringArg args key = some v) : List.lookup key args = some (.string v) := by
  unfold stringArg at h
  split at h
  · next w hw =>
    cases h
    exact hw
  · cases h

theorem create_error_state (ctx : DatabaseContext) (drv : Driver) (input : CreateTodoInput)
    (e : String) (h : (ctx.CreateTodoAsync drv input).1 = .error e) :
    ctx.CreateTodoAsync drv input = (.error e, ctx) := by
  unfold DatabaseContext.CreateTodoAsync at h ⊢
  cases hd : drv.insertErr with
  | none => simp [hd] at h
  | some err =>
    simp only [hd] at h ⊢
    rw [h]

theorem update_error_state (ctx : DatabaseContext) (drv : Driver) (id : Int)
    (input : UpdateTodoInput) (e : String) (h : (ctx.UpdateTodoAsync drv id input).1 = .error e) :
    ctx.UpdateTodoAsync drv id input = (.error e, ctx) := by
  unfold DatabaseContext.UpdateTodoAsync at h ⊢
  cases hx : ctx.todoExists drv id with
  | error err =>
    simp only [hx] at h ⊢
    rw [h]
  | ok b =>
    cases b with
    | false => simp [hx] at h
    | true =>
      by_cases hl : (buildSetParts input).length = 0
      · simp [hx, hl] at h
      · cases hu : drv.updateErr with
        | none => simp [hx, hl, hu] at h
        | some err =>
          simp only [hx, hl, hu, if_false] at h ⊢
          rw [h]

theorem delete_error_state (ctx : DatabaseContext) (drv : Driver) (id : Int) (e : String)
    (h : (ctx.DeleteTodoAsync drv id).1 = .error e) :
    ctx.DeleteTodoAsync drv id = (.error e, ctx) := by
  unfold DatabaseContext.DeleteTodoAsync at h ⊢
  cases hx : ctx.todoExists drv id with
  | error err =>
    simp only [hx] at h ⊢
    rw [h]
  | ok b =>
    cases b with
    | false => simp [hx] at h
    | true =>
      cases hu : drv.deleteErr with
      | none => simp [hx, hu] at h
      | some err =>
        simp only [hx, hu] at h ⊢
        rw [h]

theorem tool_create_error (t : TodosMcpTool) (drv : Driver) (d : String) (date : Time)
    (e : String)
    (h : (t.db.CreateTodoAsync drv { Description := d, CreatedDate := date }).1 = .error e) :
    t.CreateTodoAsync drv d date = (.error ("error creating todo: " ++ e), t) := by
  unfold TodosMcpTool.CreateTodoAsync
  rw [create_error_state _ _ _ _ h]

theorem tool_update_error (t : TodosMcpTool) (drv : Driver) (id : String) (n : Int)
    (description : Option String) (createdDate : Option Time) (e : String)
    (hp : Atoi id = some n)
    (h : (t.db.UpdateTodoAsync drv n (updateInput description createdDate)).1 = .error e) :
    t.UpdateTodoAsync drv id description createdDate =
      (.error ("error updating todo: " ++ e), t) := by
  rw [tool_update_eq, hp]
  simp only [update_error_state _ _ _ _ _ h]

theorem tool_delete_error (t : TodosMcpTool) (drv : Driver) (id : String) (n : Int) (e : String)
    (hp : Atoi id = some n) (h : (t.db.DeleteTodoAsync drv n).1 = .error e) :
    t.DeleteTodoAsync drv id = (.error ("error deleting todo: " ++ e), t) := by
  unfold TodosMcpTool.DeleteTodoAsync
  rw [hp]
  simp only [delete_error_state _ _ _ _ h]

theorem tool_read_all_of_blank (t : TodosMcpTool) (drv : Driver) (id : Option String)
    (h : ∀ i, id = some i → i.data.all isSpace = true) :
    t.ReadTodosAsync drv id = t.db.ReadTodosAsync drv [] := by
  unfold TodosMcpTool.ReadTodosAsync
  cases id with
  | none => rfl
  | some i =>
    have : TrimSpace i = "" := (TrimSpace_eq_empty_iff i).2 (h i rfl)
    simp [this]

theorem tool_read_one (t : TodosMcpTool) (drv : Driver) (i : String) (n : Int)
    (hb : i.data.all isSpace = false) (hp : Atoi (TrimSpace i) = some n) :
    t.ReadTodosAsync drv (some i) = t.db.ReadTodosAsync drv [n] := by
  unfold TodosMcpTool.ReadTodosAsync
  have hne : TrimSpace i ≠ "" := by
    intro e
    have := (TrimSpace_eq_empty_iff i).1 e
    simp [hb] at this
  simp [hne, hp]

theorem HandleMCP_create (s : MCPServer) (lib : Stdlib) (drv : Driver) (body : MCPRequest)
    (paramsMap : List (String × JSON)) (hm : body.Method = "tools/call")
    (hp : body.Params = .object paramsMap)
    (hn : List.lookup "name" paramsMap = some (.string "create_todo")) :
    s.HandleMCP lib drv { Method := "POST", Body := body, decodeFails := false } =
      s.handleCreateTodo lib drv body (toolArguments paramsMap) := by
  rw [HandleMCP_call _ _ _ _ hm, handleToolsCall_named _ _ _ _ _ _ hp hn]
  simp only [if_true]

theorem HandleMCP_read (s : MCPServer) (lib : Stdlib) (drv : Driver) (body : MCPRequest)
    (paramsMap : List (String × JSON)) (hm : body.Method = "tools/call")
    (hp : body.Params = .object paramsMap)
    (hn : List.lookup "name" paramsMap = some (.string "read_todos")) :
    s.HandleMCP lib drv { Method := "POST", Body := body, decodeFails := false } =
      s.handleReadTodos lib drv body (toolArguments paramsMap) := by
  have h1 : ¬ ("read_todos" = "create_todo") := by decide
  rw [HandleMCP_call _ _ _ _ hm, handleToolsCall_named _ _ _ _ _ _ hp hn]
  simp only [h1, if_false, if_true]

theorem HandleMCP_delete (s : MCPServer) (lib : Stdlib) (drv : Driver) (body : MCPRequest)
    (paramsMap : List (String × JSON)) (hm : body.Method = "tools/call")
    (hp : body.Params = .object paramsMap)
    (hn : List.lookup "name" paramsMap = some (.string "delete_todo")) :
    s.HandleMCP lib drv { Method := "POST", Body := body, decodeFails := false } =
      s.handleDeleteTodo drv body (toolArguments paramsMap) := by
  have h1 : ¬ ("delete_todo" = "create_todo") := by decide
  have h2 : ¬ ("delete_todo" = "read_todos") := by decide
  have h3 : ¬ ("delete_todo" = "update_todo") := by decide
  rw [HandleMCP_call _ _ _ _ hm, handleToolsCall_named _ _ _ _ _ _ hp hn]
  simp only [h1, h2, h3, if_false, if_true]

/-- C16: take a decoded `POST` request with method `tools/call` for one of the
four tools, on any driver, such that the store call the tool performs returns
an error: the insert of `create_todo`; the read of `read_todos` (of all rows
for an absent or blank id, of one id for an id that parses); the update of
`update_todo`; the delete of `delete_todo`.  Then the server answers with
status 400 and the JSON-RPC error of code -32603, message `Internal error` and
no data, and its state is unchanged.  The answer mentions neither the driver
nor the error detail, so it is the same for any two store failures. -/
theorem store_failure_is_internal_error (s : MCPServer) (lib : Stdlib) (drv : Driver)
    (body : MCPRequest) (paramsMap : List (String × JSON))
    (hm : body.Method = "tools/call") (hp : body.Params = .object paramsMap)
    (h : (List.lookup "name" paramsMap = some (.string "create_todo") ∧
            ∃ (d v : String) (date : Time) (e : String),
              List.lookup "description" (toolArguments paramsMap) = some (.string d) ∧
              List.lookup "createdDate" (toolArguments paramsMap) = some (.string v) ∧
              lib.parseRFC3339 v = some date ∧
              (s.todosTool.db.CreateTodoAsync drv
                { Description := d, CreatedDate := date }).1 = .error e) ∨
         (List.lookup "name" paramsMap = some (.string "read_todos") ∧
            ∃ e : String,
              ((∀ i, List.lookup "id" (toolArguments paramsMap) = some (.string i) →
                  i.data.all isSpace = true) ∧
                s.todosTool.db.ReadTodosAsync drv [] = .error e) ∨
              (∃ (i : String) (n : Int),
                List.lookup "id" (toolArguments paramsMap) = some (.string i) ∧
                i.data.all isSpace = false ∧ Atoi (TrimSpace i) = some n ∧
                s.todosTool.db.ReadTodosAsync drv [n] = .error e)) ∨
         (List.lookup "name" paramsMap = some (.string "update_todo") ∧
            ∃ (i : String) (n : Int) (e : String),
              List.lookup "id" (toolArguments paramsMap) = some (.string i) ∧
              Atoi i = some n ∧
              (s.todosTool.db.UpdateTodoAsync drv n
                (updateInput (stringArg (toolArguments paramsMap) "description")
                  (dateArg lib (toolArguments paramsMap)))).1 = .error e) ∨
         (List.lookup "name" paramsMap = some (.string "delete_todo") ∧
            ∃ (i : String) (n : Int) (e : String),
              List.lookup "id" (toolArguments paramsMap) = some (.string i) ∧
              Atoi i = some n ∧
              (s.todosTool.db.DeleteTodoAsync drv n).1 = .error e)) :
    s.HandleMCP lib drv { Method := "POST", Body := body, decodeFails := false } =
      ({ status := 400,
         body := some { JSONRPC := "2.0", ID := body.ID, Result := none,
                        Error := some { Code := -32603, Message := "Internal error",
                                        Data := none } } },
       s) := by
  rcases h with ⟨hn, d, v, date, e, hd, hv, hparse, herr⟩ | ⟨hn, e, hread⟩ |
    ⟨hn, i, n, e, hid, hatoi, herr⟩ | ⟨hn, i, n, e, hid, hatoi, herr⟩
  · rw [HandleMCP_create _ _ _ _ _ hm hp hn]
    unfold MCPServer.handleCreateTodo
    simp only [stringArg_eq_some _ _ _ hd, stringArg_eq_some _ _ _ hv, hparse,
      tool_create_error _ _ _ _ _ herr]
    rfl
  · rw [HandleMCP_read _ _ _ _ _ hm hp hn]
    have key : s.todosTool.ReadTodosAsync drv (stringArg (toolArguments paramsMap) "id") =
        .error e := by
      rcases hread with ⟨hblank, herr⟩ | ⟨i, n, hid, hb, hatoi, herr⟩
      · rw [tool_read_all_of_blank _ _ _
          (fun i hi => hblank i (lookup_of_stringArg _ _ _ hi)), herr]
      · rw [stringArg_eq_some _ _ _ hid, tool_read_one _ _ _ _ hb hatoi, herr]
    unfold MCPServer.handleReadTodos
    simp only [key]
    rfl
  · rw [HandleMCP_update _ _ _ _ _ hm hp hn, handleUpdateTodo_of_date,
      stringArg_eq_some _ _ _ hid]
    simp only [tool_update_error _ _ _ _ _ _ _ hatoi herr]
    rfl
  · rw [HandleMCP_delete _ _ _ _ _ hm hp hn]
    unfold MCPServer.handleDeleteTodo
    simp only [stringArg_eq_some _ _ _ hid, tool_delete_error _ _ _ _ _ hatoi herr]
    rfl

/-- Witness for C16: a `delete_todo` of row 1 on a driver whose `DELETE`
statement fails with the detail `disk I/O error`. -/
theorem store_failure_is_internal_error_witness :
    (MCPServer.mk (TodosMcpTool.mk (DatabaseContext.mk [⟨1, some "a", ⟨0, 0⟩⟩] 1))).HandleMCP
        { parseRFC3339 := fun _ => none, marshalTodos := fun _ => none }
        { Driver.healthy with deleteErr := some "disk I/O error" }
        { Method := "POST",
          Body := { JSONRPC := "2.0", ID := .string "r1", Method := "tools/call",
                    Params := .object
                      [("name", .string "delete_todo"),
                       ("arguments", .object [("id", .string "1")])] },
          decodeFails := false } =
      ({ status := 400,
         body := some { JSONRPC := "2.0", ID := .string "r1", Result := none,
                        Error := some { Code := -32603, Message := "Internal error",
                                        Data := none } } },
       MCPServer.mk (TodosMcpTool.mk (DatabaseContext.mk [⟨1, some "a", ⟨0, 0⟩⟩] 1))) :=
  store_failure_is_internal_error
    (MCPServer.mk (TodosMcpTool.mk (DatabaseContext.mk [⟨1, some "a", ⟨0, 0⟩⟩] 1)))
    { parseRFC3339 := fun _ => none, marshalTodos := fun _ => none }
    { Driver.healthy with deleteErr := some "disk I/O error" }
    { JSONRPC := "2.0", ID := .string "r1", Method := "tools/call",
      Params := .object
        [("name", .string "delete_todo"), ("arguments", .object [("id", .string "1")])] }
    [("name", .string "delete_todo"), ("arguments", .object [("id", .string "1")])]
    rfl rfl
    (Or.inr (Or.inr (Or.inr ⟨rfl, "1", 1, "failed to delete todo: disk I/O error",
      rfl, by decide, by decide⟩)))

end MCPServer
